import Mathlib

/-!
# The SQLite message store of my-smtp-proxy (storage/sqlite.go)

The store keeps every message as a JSON document in the column `message` of one
table whose other column is `id integer primary key asc`.  Each method of
`SqliteDB` issues one SQL statement (Search issues two).  The development below
embeds the methods as state-passing functions over the content of that table.

Three things the methods rely on live outside the repository and are taken as
parameters, bundled in `Env`:
* `json.Marshal` / `json.Unmarshal` for `data.Message`,
* the JSON path operator `->>` of the engine,
* the candidate the engine draws when it has to pick a rowid at random.

The parts of the engine that the properties depend on are written out:
rowid assignment for an `integer primary key` column without AUTOINCREMENT,
`ORDER BY id`, `LIMIT ? OFFSET ?`, `LIKE`, `DELETE ... WHERE`, `COUNT(*)`;
and so is the Go conversion `string(id)` of an `int64`.

A statement fails in this development when its table does not exist, when it applies
`->>` to a document that is not well-formed JSON, when it evaluates LIKE with a pattern
longer than the engine accepts, and, for an insert, when no rowid is left.  Failures that
come from outside the calls (I/O, locking, size limits of the engine on a document) are
not represented.

`SqliteDB` is the store as one connection sees it, which is the store itself as long as
the calls are made one at a time.  The `*sql.DB` of `sql.Open` is a pool of connections;
`MemoryPool` below represents it for the data source `:memory:`, where every connection
has a database of its own, and is used for calls that overlap in time.
-/

namespace Storage

/-! ## Data model -/

/-- Error values a method can hand back (Go `error`; `none` plays the role of `nil`). -/
inductive GoError where
  /-- json.Marshal rejected the message -/
  | marshalFailed
  /-- the statement named a table that does not exist -/
  | noSuchTable
  /-- SQLITE_FULL: no unused rowid could be found -/
  | tableFull
  /-- sql.ErrNoRows from QueryRow(...).Scan -/
  | errNoRows
  /-- json.Unmarshal rejected the document -/
  | unmarshalFailed
  /-- the engine met a document that is not well-formed JSON under `->>` -/
  | malformedJSON
  deriving DecidableEq, Repr

/-- What the engine gets from a document by a chain of `->>` operators. -/
inductive Extracted where
  /-- the document is not well-formed JSON: the statement stops with an error -/
  | malformed
  /-- SQL NULL: the path is absent or holds JSON null -/
  | null
  /-- the text found at the path -/
  | text (t : String)
  deriving DecidableEq, Repr

/-- One row of the table: `(id integer primary key asc, message JSON)`. -/
structure Row (δ : Type) where
  id : Int
  message : δ
  deriving DecidableEq, Repr

/-- What the store uses from outside the repository.  `δ` is the type of a value held in
the `message` column, `μ` is `data.Message`.
* `marshal m` is `json.Marshal(m)` (`none` when it returns an error);
* `unmarshal d` is `json.Unmarshal([]byte(d), msg)` (`none` when it returns an error);
* `extract d path` is what the engine gets from `d` by the chain of `->>` operators
  along `path` (`message->>ID`, `message->>Raw->>To`, ...); the fields read this way are
  strings in every document written by Store;
* `probe used` is the rowid the engine draws at random once the largest rowid is taken,
  `none` when it gives up. -/
structure Env (δ μ : Type) where
  marshal : μ → Option δ
  unmarshal : δ → Option μ
  extract : δ → List String → Extracted
  probe : List Int → Option Int

/-- The storage backend.  `DB` is the content of table `Table` in the connected database,
in rowid order, or `none` when the database has no such table. -/
structure SqliteDB (δ : Type) where
  DB : Option (List (Row δ))
  Table : String
  deriving DecidableEq, Repr

/-! ## Go: `string(id)` for an integer `id` -/

/-- Go conversion of an integer to `string`: the UTF-8 text of the code point `v`; every
value that is not a valid code point (negative, above U+10FFFF, or a surrogate) gives
the replacement character U+FFFD. -/
def intstring (v : Int) : String :=
  if 0 ≤ v ∧ v ≤ 0x10FFFF ∧ ¬ (0xD800 ≤ v ∧ v ≤ 0xDFFF) then
    String.singleton (Char.ofNat v.toNat)
  else
    String.singleton (Char.ofNat 0xFFFD)

/-! ## The engine -/

/-- Largest rowid a table can hold (2^63 - 1). -/
def maxRowid : Int := 9223372036854775807

/-- Largest rowid present in the table, `none` for an empty table. -/
def lastRowid {δ : Type} : List (Row δ) → Option Int
  | [] => none
  | r :: rs =>
    match lastRowid rs with
    | none => some r.id
    | some v => some (max r.id v)

/-- Rowid given to a new row of a table with an `integer primary key` and no AUTOINCREMENT:
1 for an empty table, otherwise one more than the largest rowid present; when the largest
is `maxRowid` the engine draws candidates in `1 .. 2^62` at random and fails with
SQLITE_FULL if it finds no unused one. -/
def newRowid {δ : Type} (probe : List Int → Option Int) (rows : List (Row δ)) :
    Except GoError Int :=
  match lastRowid rows with
  | none => .ok 1
  | some v =>
    if v < maxRowid then .ok (v + 1)
    else
      match probe (rows.map Row.id) with
      | none => .error .tableFull
      | some r =>
        if 1 ≤ r ∧ r ≤ 4611686018427387904 ∧ r ∉ rows.map Row.id then .ok r
        else .error .tableFull

/-- Put a row at its place in rowid order. -/
def insertRow {δ : Type} (r : Row δ) : List (Row δ) → List (Row δ)
  | [] => [r]
  | x :: xs => if r.id ≤ x.id then r :: x :: xs else x :: insertRow r xs

/-- Statement `INSERT INTO t (message) VALUES (?)`: the new table and the rowid reported by
LastInsertId. -/
def execInsert {δ : Type} (probe : List Int → Option Int) (db : Option (List (Row δ)))
    (encoded : δ) : Except GoError (List (Row δ) × Int) :=
  match db with
  | none => .error .noSuchTable
  | some rows =>
    match newRowid probe rows with
    | .error e => .error e
    | .ok id => .ok (insertRow ⟨id, encoded⟩ rows, id)

/-- Clause `ORDER BY id`: rows by ascending rowid. -/
def orderById {δ : Type} : List (Row δ) → List (Row δ)
  | [] => []
  | r :: rs => insertRow r (orderById rs)

/-- Clause `LIMIT ? OFFSET ?` with the bound values `limit` and `offset`: a negative offset
skips nothing and a negative limit puts no bound on the number of rows. -/
def limitOffset {α : Type} (limit offset : Int) (xs : List α) : List α :=
  let rest := xs.drop offset.toNat
  if limit < 0 then rest else rest.take limit.toNat

/-- Statement `DELETE FROM t WHERE p`: the rows that stay. -/
def deleteWhere {δ : Type} (p : Row δ → Bool) : List (Row δ) → List (Row δ)
  | [] => []
  | r :: rs => if p r then deleteWhere p rs else r :: deleteWhere p rs

/-- Helper of `patternCompare`: does `f` accept some suffix of the text. -/
def anySuffix (f : List Char → Bool) : List Char → Bool
  | [] => f []
  | c :: cs => f (c :: cs) || anySuffix f cs

/-- The matcher behind `LIKE` in its default configuration and without an ESCAPE clause,
as Search uses it: `%` in the pattern stands for any run of characters, `_` for any one
character, and every other character matches itself or the same ASCII letter in the other
case (`Char.toLower` changes the letters A-Z only). -/
def patternCompare : List Char → List Char → Bool
  | [], t => t.isEmpty
  | p :: ps, t =>
    if p = '%' then anySuffix (patternCompare ps) t
    else
      match t with
      | [] => false
      | c :: cs => (p == '_' || p.toLower == c.toLower) && patternCompare ps cs

/-- The part of a text that the matcher reads: the characters before the first NUL. -/
def cstr (l : List Char) : List Char := l.takeWhile (fun c => c != Char.ofNat 0)

/-- Expression `value LIKE pattern` for a value that could be read; it is not true when the
value is NULL.  The engine hands both texts to the matcher as NUL-terminated strings. -/
def sqlLike (value : Extracted) (pattern : String) : Bool :=
  match value with
  | .text t => patternCompare (cstr pattern.data) (cstr t.data)
  | _ => false

/-- Statement `SELECT ... FROM t WHERE p ORDER BY id LIMIT ? OFFSET ?`, stepped row by row
over the table in rowid order: the rows it hands out and the error that stopped it, if any.
`p r` is the WHERE clause on the row `r` (`none` when evaluating it fails), `skip` the
number of matching rows still to pass over, `left` the number of rows still to hand out
(`none` for no bound).  Once `left` is 0 no further row is read. -/
def stepSelect {δ : Type} (p : Row δ → Option Bool) :
    List (Row δ) → Nat → Option Nat → List (Row δ) × Option GoError
  | [], _, _ => ([], none)
  | r :: rs, skip, left =>
    if left = some 0 then ([], none)
    else
      match p r with
      | none => ([], some .malformedJSON)
      | some false => stepSelect p rs skip left
      | some true =>
        if 0 < skip then stepSelect p rs (skip - 1) left
        else
          let rest := stepSelect p rs 0 (left.map (fun n => n - 1))
          (r :: rest.1, rest.2)

/-- Statement `SELECT count(*) FROM t WHERE p`: every row is read. -/
def countWhere {δ : Type} (p : Row δ → Option Bool) (rows : List (Row δ)) :
    Except GoError Nat :=
  if rows.all (fun r => (p r).isSome) then .ok (rows.filter (fun r => p r == some true)).length
  else .error .malformedJSON

/-- Statement `SELECT ... FROM t WHERE p` read by QueryRow: the first row, in rowid order,
for which `p` is true; rows after it are not read. -/
def firstWhere {δ : Type} (p : Row δ → Option Bool) :
    List (Row δ) → Except GoError (Option (Row δ))
  | [] => .ok none
  | r :: rs =>
    match p r with
    | none => .error .malformedJSON
    | some true => .ok (some r)
    | some false => firstWhere p rs

/-! ## storage/sqlite.go -/

/-- CreateSqlite (sqlite.go:22-43): connect to the database `file` and run
`CREATE TABLE IF NOT EXISTS t (id integer primary key asc, message JSON)`.
`file` is what the database already holds for the table (`none` for a new database such
as `:memory:`).  This is the case in which the open and the CREATE TABLE succeed; when one
of them fails the code returns nil and there is no store to call. -/
def CreateSqlite {δ : Type} (file : Option (List (Row δ))) (table : String) : SqliteDB δ :=
  match file with
  | none => ⟨some [], table⟩
  | some rows => ⟨some rows, table⟩

/-- Store (sqlite.go:46-62): marshal the message, insert one row, return `string(id)` of
LastInsertId.  The results are the store after the call, the token and the error. -/
def SqliteDB.Store {δ μ : Type} (env : Env δ μ) (sqlite : SqliteDB δ) (m : μ) :
    SqliteDB δ × String × Option GoError :=
  match env.marshal m with
  | none => (sqlite, "", some .marshalFailed)
  | some encoded =>
    match execInsert env.probe sqlite.DB encoded with
    | .error err => (sqlite, "", some err)
    | .ok (rows, id) => (⟨some rows, sqlite.Table⟩, intstring id, none)

/-- Count (sqlite.go:65-75): `SELECT COUNT(*)`, or -1 when the query fails. -/
def SqliteDB.Count {δ : Type} (sqlite : SqliteDB δ) : Int :=
  match sqlite.DB with
  | none => -1
  | some rows => rows.length

/-- The `for rows.Next()` loop of Search (sqlite.go:101-118) and List (sqlite.go:140-157):
a document that does not parse is skipped, every other one is appended to `messages`. -/
def decodeRows {δ μ : Type} (env : Env δ μ) : List δ → List μ → List μ
  | [], messages => messages
  | message :: rest, messages =>
    match env.unmarshal message with
    | none => decodeRows env rest messages
    | some msg => decodeRows env rest (messages ++ [msg])

/-- The `switch kind` of Search (sqlite.go:82-88): the JSON path that is matched. -/
def searchField (kind : String) : List String :=
  if kind = "to" then ["Raw", "To"]
  else if kind = "from" then ["Raw", "From"]
  else ["Raw", "Data"]

/-- The `fmt.Sprintf("%%%s%%", query)` of Search (sqlite.go:90). -/
def wrapQuery (query : String) : String := "%" ++ query ++ "%"

/-- Longest LIKE pattern, in bytes, that the engine accepts (its default limit). -/
def likePatternLimit : Nat := 50000

/-- The WHERE clause of both statements of Search: `<field> LIKE ?`; `none` when evaluating
it fails: the document of the row is not well-formed JSON, or the pattern is longer than
the engine accepts. -/
def searchPred {δ μ : Type} (env : Env δ μ) (field : List String) (pattern : String)
    (r : Row δ) : Option Bool :=
  match env.extract r.message field with
  | .malformed => none
  | v => if likePatternLimit < pattern.utf8ByteSize then none else some (sqlLike v pattern)

/-- Search (sqlite.go:78-127): a page of the matching rows and the number of all matching
rows.  The page statement takes its first step inside `DB.Query`: an error there is
returned (nil, 0, err).  Its later steps are taken by `rows.Next()`: an error there ends
the loop and is not read, since `rows.Err()` is never called.  Then the count statement
runs on the same table (on failure: the page, -1, err). -/
def SqliteDB.Search {δ μ : Type} (env : Env δ μ) (sqlite : SqliteDB δ) (kind query : String)
    (start limit : Int) : Option (List μ) × Int × Option GoError :=
  let field := searchField kind
  let query := wrapQuery query
  match sqlite.DB with
  | none => (none, 0, some .noSuchTable)
  | some rows =>
    match stepSelect (searchPred env field query) (orderById rows) start.toNat
        (if limit < 0 then none else some limit.toNat) with
    | ([], some err) => (none, 0, some err)
    | (page, _) =>
      let messages := decodeRows env (page.map Row.message) []
      match countWhere (searchPred env field query) rows with
      | .error err => (some messages, -1, some err)
      | .ok count => (some messages, (count : Int), none)

/-- List (sqlite.go:130-160): a page of all rows in rowid order. -/
def SqliteDB.List {δ μ : Type} (env : Env δ μ) (sqlite : SqliteDB δ) (start limit : Int) :
    Option (List μ) × Option GoError :=
  match sqlite.DB with
  | none => (none, some .noSuchTable)
  | some rows =>
    let page := limitOffset limit start (orderById rows)
    (some (decodeRows env (page.map Row.message) []), none)

/-- The WHERE clause of DeleteOne and Load: `message->>ID = ?`; `none` when the document
of the row is not well-formed JSON. -/
def hasID {δ μ : Type} (env : Env δ μ) (id : String) (r : Row δ) : Option Bool :=
  match env.extract r.message ["ID"] with
  | .malformed => none
  | .null => some false
  | .text t => some (t == id)

/-- DeleteOne (sqlite.go:163-167): `DELETE FROM t WHERE message->>ID = ?`.  The statement
reads every row; when it fails no row is removed. -/
def SqliteDB.DeleteOne {δ μ : Type} (env : Env δ μ) (sqlite : SqliteDB δ) (id : String) :
    SqliteDB δ × Option GoError :=
  match sqlite.DB with
  | none => (sqlite, some .noSuchTable)
  | some rows =>
    if rows.all (fun r => (hasID env id r).isSome) then
      (⟨some (deleteWhere (fun r => hasID env id r == some true) rows), sqlite.Table⟩, none)
    else (sqlite, some .malformedJSON)

/-- DeleteAll (sqlite.go:170-173): `DELETE FROM t`. -/
def SqliteDB.DeleteAll {δ : Type} (sqlite : SqliteDB δ) : SqliteDB δ × Option GoError :=
  match sqlite.DB with
  | none => (sqlite, some .noSuchTable)
  | some _ => (⟨some [], sqlite.Table⟩, none)

/-- Load (sqlite.go:176-193): the first row with the given embedded ID, decoded;
sql.ErrNoRows when there is none. -/
def SqliteDB.Load {δ μ : Type} (env : Env δ μ) (sqlite : SqliteDB δ) (id : String) :
    Option μ × Option GoError :=
  match sqlite.DB with
  | none => (none, some .noSuchTable)
  | some rows =>
    match firstWhere (hasID env id) rows with
    | .error err => (none, some err)
    | .ok none => (none, some .errNoRows)
    | .ok (some r) =>
      match env.unmarshal r.message with
      | none => (none, some .unmarshalFailed)
      | some msg => (some msg, none)

/-! ## The connection pool on `:memory:` -/

/-- The pool of connections behind the `*sql.DB` that `sql.Open` returns (sqlite.go:24), for
the data source `:memory:`.  Every connection of the pool has a database of its own, and
`CREATE TABLE` (sqlite.go:31) ran on the first connection only.  `conns` holds, for each
open connection, the content of table `Table` in its database. -/
structure MemoryPool (δ : Type) where
  conns : List (Option (List (Row δ)))
  Table : String
  deriving DecidableEq, Repr

/-- CreateSqlite(":memory:", table) with its pool: one connection, holding the new table. -/
def CreateSqliteMemory {δ : Type} (table : String) : MemoryPool δ := ⟨[some []], table⟩

/-- The store as connection number `c` sees it.  A number beyond the open connections stands
for a connection that the pool opens for the call because the others are in use: its
database is new and has no table. -/
def MemoryPool.onConn {δ : Type} (p : MemoryPool δ) (c : Nat) : SqliteDB δ :=
  match p.conns.get? c with
  | some db => ⟨db, p.Table⟩
  | none => ⟨none, p.Table⟩

/-- Store served by connection `c` of the pool. -/
def MemoryPool.Store {δ μ : Type} (env : Env δ μ) (p : MemoryPool δ) (c : Nat) (m : μ) :
    MemoryPool δ × String × Option GoError :=
  let r := (p.onConn c).Store env m
  (⟨if c < p.conns.length then p.conns.set c r.1.DB else p.conns ++ [r.1.DB], p.Table⟩,
    r.2.1, r.2.2)

/-- Count served by connection `c` of the pool. -/
def MemoryPool.Count {δ : Type} (p : MemoryPool δ) (c : Nat) : Int :=
  (p.onConn c).Count

/-- Store calls that all overlap in time: the call number `i` finds the connections
`0 .. i-1` in use and is served by connection `c + i`.  The pool after the calls and the
pair `(token, error)` returned by each. -/
def storeOverlapping {δ μ : Type} (env : Env δ μ) :
    MemoryPool δ → Nat → List μ → MemoryPool δ × List (String × Option GoError)
  | p, _, [] => (p, [])
  | p, c, m :: ms =>
    let r := p.Store env c m
    let rest := storeOverlapping env r.1 (c + 1) ms
    (rest.1, (r.2.1, r.2.2) :: rest.2)

/-! ## A small instance for concrete runs -/

/-- Modelled from the spec: `data.Message` is declared in the package `data`, which is not
among the sources.  The instance keeps what the store looks at: the identity and the three
envelope fields From, To and Data, all strings. -/
structure DemoMessage where
  ID : String
  From : String
  To : String
  Data : String
  deriving DecidableEq, Repr

/-- A value of the `message` column: the document of a message, or text that is not one. -/
inductive DemoDoc where
  | json (m : DemoMessage)
  | junk (raw : String)
  deriving DecidableEq, Repr

/-- Path extraction on a `DemoDoc`. -/
def demoExtract : DemoDoc → List String → Extracted
  | .json m, path =>
    if path = ["ID"] then .text m.ID
    else if path = ["Raw", "To"] then .text m.To
    else if path = ["Raw", "From"] then .text m.From
    else if path = ["Raw", "Data"] then .text m.Data
    else .null
  | .junk _, _ => .malformed

/-- Decoding of a `DemoDoc`. -/
def demoUnmarshal : DemoDoc → Option DemoMessage
  | .json m => some m
  | .junk _ => none

/-- The instance: every message marshals, documents decode back, the engine never finds a
random rowid. -/
def demoEnv : Env DemoDoc DemoMessage :=
  ⟨fun m => some (.json m), demoUnmarshal, demoExtract, fun _ => none⟩

/-- A message that only carries an ID, as in the tests of the package. -/
def demoMsg (id : String) : DemoMessage := ⟨id, "", "", ""⟩

/-! ## Sequences of calls -/

/-- Store the messages one after the other; the final store and the pair
`(token, error)` returned by each call. -/
def storeAll {δ μ : Type} (env : Env δ μ) :
    SqliteDB δ → List μ → SqliteDB δ × List (String × Option GoError)
  | s, [] => (s, [])
  | s, m :: ms =>
    let r := s.Store env m
    let rest := storeAll env r.1 ms
    (rest.1, (r.2.1, r.2.2) :: rest.2)

/-- A call that can change the table. -/
inductive Op (μ : Type) where
  | store (m : μ)
  | deleteOne (id : String)
  | deleteAll

/-- The store after a sequence of calls, with the number of Store calls that returned a
nil error and the number of rows the delete statements removed. -/
structure Tally (δ : Type) where
  db : SqliteDB δ
  stored : Nat
  removed : Nat

/-- Number of rows a successful `DELETE FROM t WHERE p` removes (its RowsAffected). -/
def rowsAffected {δ : Type} (p : Row δ → Bool) (db : Option (List (Row δ))) : Nat :=
  match db with
  | none => 0
  | some rows => (rows.filter p).length

/-- One call, tallied. -/
def step {δ μ : Type} (env : Env δ μ) (t : Tally δ) : Op μ → Tally δ
  | .store m =>
    match t.db.Store env m with
    | (db, _, none) => ⟨db, t.stored + 1, t.removed⟩
    | (db, _, some _) => ⟨db, t.stored, t.removed⟩
  | .deleteOne id =>
    match t.db.DeleteOne env id with
    | (db, none) =>
      ⟨db, t.stored, t.removed + rowsAffected (fun r => hasID env id r == some true) t.db.DB⟩
    | (db, some _) => ⟨db, t.stored, t.removed⟩
  | .deleteAll =>
    match t.db.DeleteAll with
    | (db, none) => ⟨db, t.stored, t.removed + rowsAffected (fun _ => true) t.db.DB⟩
    | (db, some _) => ⟨db, t.stored, t.removed⟩

/-- A sequence of calls on a store, tallied from zero. -/
def run {δ μ : Type} (env : Env δ μ) (s : SqliteDB δ) (ops : List (Op μ)) : Tally δ :=
  ops.foldl (step env) ⟨s, 0, 0⟩

/-- Rows holding the documents `ds` under consecutive rowids starting at `k`. -/
def numbered {δ : Type} (k : Int) : List δ → List (Row δ)
  | [] => []
  | d :: ds => ⟨k, d⟩ :: numbered (k + 1) ds

/-- The store of the tests: identities "0" .. "24" stored on a new store. -/
def demoStore25 : SqliteDB DemoDoc :=
  (storeAll demoEnv (CreateSqlite none "messages")
    ((List.range 25).map (fun i => demoMsg (toString i)))).1

/-- Three messages with a body. -/
def demoMsgs3 : List DemoMessage :=
  [⟨"a", "ann@x.org", "bob@y.org", "Hello World"⟩,
   ⟨"b", "bob@y.org", "ann@x.org", "say hello"⟩,
   ⟨"c", "cy@z.org", "ann@x.org", "bye"⟩]

/-- The three messages stored on a new store. -/
def demoMail : SqliteDB DemoDoc :=
  (storeAll demoEnv (CreateSqlite none "messages") demoMsgs3).1

/-- The three-message store after DeleteOne("b"): rows with the rowids 1 and 3. -/
def demoGap : SqliteDB DemoDoc := (demoMail.DeleteOne demoEnv "b").1

/-- A database that already holds a row whose document is not JSON, opened as a store. -/
def demoJunk : SqliteDB DemoDoc :=
  CreateSqlite (some [⟨1, .junk "not json"⟩]) "messages"

/-- The 25 messages of the tests. -/
def demoMsgs25 : List DemoMessage := (List.range 25).map (fun i => demoMsg (toString i))

/-! ## Lemmas on the engine -/

theorem insertRow_perm {δ : Type} (r : Row δ) (rows : List (Row δ)) :
    (insertRow r rows).Perm (r :: rows) := by
  induction rows with
  | nil => simp [insertRow]
  | cons x xs ih =>
    unfold insertRow
    split
    · exact List.Perm.refl _
    · exact (List.Perm.cons x ih).trans (List.Perm.swap r x xs)

theorem insertRow_length {δ : Type} (r : Row δ) (rows : List (Row δ)) :
    (insertRow r rows).length = rows.length + 1 := by
  simpa using (insertRow_perm r rows).length_eq

theorem mem_insertRow {δ : Type} (a r : Row δ) (rows : List (Row δ)) :
    a ∈ insertRow r rows ↔ a = r ∨ a ∈ rows := by
  simpa using (insertRow_perm r rows).mem_iff

theorem insertRow_sorted {δ : Type} (r : Row δ) (rows : List (Row δ))
    (h : rows.Pairwise (fun a b => a.id ≤ b.id)) :
    (insertRow r rows).Pairwise (fun a b => a.id ≤ b.id) := by
  induction rows with
  | nil => simp [insertRow]
  | cons x xs ih =>
    rw [List.pairwise_cons] at h
    unfold insertRow
    split
    · rename_i hle
      refine List.pairwise_cons.mpr ⟨?_, List.pairwise_cons.mpr h⟩
      intro a ha
      rcases List.mem_cons.mp ha with rfl | ha
      · exact hle
      · exact le_trans hle (h.1 a ha)
    · rename_i hle
      refine List.pairwise_cons.mpr ⟨?_, ih h.2⟩
      intro a ha
      rcases (mem_insertRow a r xs).mp ha with rfl | ha
      · omega
      · exact h.1 a ha

theorem insertRow_last {δ : Type} (r : Row δ) (rows : List (Row δ))
    (h : ∀ a ∈ rows, a.id < r.id) : insertRow r rows = rows ++ [r] := by
  induction rows with
  | nil => rfl
  | cons x xs ih =>
    have hx : ¬ r.id ≤ x.id := by
      have := h x (List.mem_cons_self x xs)
      omega
    simp only [insertRow, hx, if_false, List.cons_append]
    rw [ih (fun a ha => h a (List.mem_cons_of_mem x ha))]

theorem orderById_perm {δ : Type} (rows : List (Row δ)) : (orderById rows).Perm rows := by
  induction rows with
  | nil => exact List.Perm.refl _
  | cons x xs ih => exact (insertRow_perm x (orderById xs)).trans (List.Perm.cons x ih)

theorem orderById_sorted {δ : Type} (rows : List (Row δ)) :
    (orderById rows).Pairwise (fun a b => a.id ≤ b.id) := by
  induction rows with
  | nil => simp [orderById]
  | cons x xs ih => exact insertRow_sorted x _ ih

theorem orderById_of_sorted {δ : Type} (rows : List (Row δ))
    (h : rows.Pairwise (fun a b => a.id ≤ b.id)) : orderById rows = rows := by
  induction rows with
  | nil => rfl
  | cons x xs ih =>
    rw [List.pairwise_cons] at h
    simp only [orderById, ih h.2]
    cases xs with
    | nil => rfl
    | cons y ys => simp [insertRow, h.1 y (List.mem_cons_self y ys)]

theorem limitOffset_sublist {α : Type} (limit offset : Int) (xs : List α) :
    (limitOffset limit offset xs).Sublist xs := by
  unfold limitOffset
  split
  · exact List.drop_sublist _ _
  · exact (List.take_sublist _ _).trans (List.drop_sublist _ _)

theorem limitOffset_length_le {α : Type} (limit offset : Int) (xs : List α)
    (h : 0 ≤ limit) : ((limitOffset limit offset xs).length : Int) ≤ limit := by
  have hlim : ¬ limit < 0 := by omega
  simp only [limitOffset, hlim, if_false, List.length_take]
  omega

theorem deleteWhere_eq_filter {δ : Type} (p : Row δ → Bool) (rows : List (Row δ)) :
    deleteWhere p rows = rows.filter (fun r => !p r) := by
  induction rows with
  | nil => rfl
  | cons x xs ih =>
    by_cases hx : p x = true <;> simp [deleteWhere, hx, ih]

theorem deleteWhere_length {δ : Type} (p : Row δ → Bool) (rows : List (Row δ)) :
    (deleteWhere p rows).length + (rows.filter p).length = rows.length := by
  induction rows with
  | nil => rfl
  | cons x xs ih =>
    by_cases hx : p x = true <;> simp [deleteWhere, hx] <;> omega

theorem decodeRows_eq {δ μ : Type} (env : Env δ μ) (ds : List δ) (acc : List μ) :
    decodeRows env ds acc = acc ++ ds.filterMap env.unmarshal := by
  induction ds generalizing acc with
  | nil => simp [decodeRows]
  | cons d ds ih =>
    cases hd : env.unmarshal d with
    | none => simp [decodeRows, hd, ih, List.filterMap_cons]
    | some m => simp [decodeRows, hd, ih, List.filterMap_cons]

theorem lastRowid_eq_none {δ : Type} (rows : List (Row δ)) :
    lastRowid rows = none ↔ rows = [] := by
  cases rows with
  | nil => simp [lastRowid]
  | cons x xs =>
    simp only [lastRowid]
    split <;> simp

theorem lastRowid_ge {δ : Type} (rows : List (Row δ)) (v : Int)
    (h : lastRowid rows = some v) : ∀ r ∈ rows, r.id ≤ v := by
  induction rows generalizing v with
  | nil => simp
  | cons x xs ih =>
    simp only [lastRowid] at h
    split at h
    · rename_i hn
      rw [lastRowid_eq_none] at hn
      subst hn
      simp only [Option.some.injEq] at h
      simp [h]
    · rename_i w hw
      simp only [Option.some.injEq] at h
      intro r hr
      rcases List.mem_cons.mp hr with rfl | hr
      · omega
      · have := ih w hw r hr
        omega

theorem lastRowid_mem {δ : Type} (rows : List (Row δ)) (v : Int)
    (h : lastRowid rows = some v) : ∃ r ∈ rows, r.id = v := by
  induction rows generalizing v with
  | nil => simp [lastRowid] at h
  | cons x xs ih =>
    simp only [lastRowid] at h
    split at h
    · simp only [Option.some.injEq] at h
      exact ⟨x, List.mem_cons_self _ _, h⟩
    · rename_i w hw
      simp only [Option.some.injEq] at h
      obtain ⟨r, hr, hrw⟩ := ih w hw
      rcases max_choice x.id w with hc | hc
      · exact ⟨x, List.mem_cons_self _ _, by omega⟩
      · exact ⟨r, List.mem_cons_of_mem _ hr, by omega⟩

/-- What a successful Store did: the message marshalled, the table existed, the engine
chose a rowid, the row went into the table and the token is `string(id)`. -/
theorem Store_ok {δ μ : Type} (env : Env δ μ) (s s1 : SqliteDB δ) (m : μ) (tok : String)
    (h : s.Store env m = (s1, tok, none)) :
    ∃ rows doc id, s.DB = some rows ∧ env.marshal m = some doc ∧
      newRowid env.probe rows = .ok id ∧
      s1 = ⟨some (insertRow ⟨id, doc⟩ rows), s.Table⟩ ∧ tok = intstring id := by
  unfold SqliteDB.Store at h
  cases hm : env.marshal m with
  | none => simp [hm] at h
  | some doc =>
    cases hdb : s.DB with
    | none => simp [hm, hdb, execInsert] at h
    | some rows =>
      cases hid : newRowid env.probe rows with
      | error e => simp [hm, hdb, execInsert, hid] at h
      | ok id =>
        simp only [hm, hdb, execInsert, hid, Prod.mk.injEq, and_true] at h
        exact ⟨rows, doc, id, rfl, rfl, hid, h.1.symm, h.2.symm⟩

theorem Store_of_newRowid {δ μ : Type} (env : Env δ μ) (s : SqliteDB δ) (m : μ)
    (rows : List (Row δ)) (doc : δ) (id : Int) (hdb : s.DB = some rows)
    (hm : env.marshal m = some doc) (hid : newRowid env.probe rows = .ok id) :
    s.Store env m = (⟨some (insertRow ⟨id, doc⟩ rows), s.Table⟩, intstring id, none) := by
  simp [SqliteDB.Store, hm, hdb, execInsert, hid]

/-- A Store that returns an error leaves the store as it was. -/
theorem Store_err {δ μ : Type} (env : Env δ μ) (s : SqliteDB δ) (m : μ)
    (h : (s.Store env m).2.2 ≠ none) : (s.Store env m).1 = s := by
  unfold SqliteDB.Store at h ⊢
  cases hm : env.marshal m with
  | none => simp [hm]
  | some doc =>
    cases hi : execInsert env.probe s.DB doc with
    | error e => simp [hm, hi]
    | ok v => simp [hm, hi] at h

/-- The rowid of a successful insert when the largest rowid is below the maximum. -/
theorem newRowid_fresh {δ : Type} (probe : List Int → Option Int) (rows : List (Row δ))
    (h : ∀ r ∈ rows, r.id < maxRowid) :
    ∃ id, newRowid probe rows = .ok id ∧ (∀ r ∈ rows, r.id < id) ∧
      (rows = [] → id = 1) ∧ (∀ v, lastRowid rows = some v → id = v + 1) := by
  cases hl : lastRowid rows with
  | none =>
    have hr := (lastRowid_eq_none rows).mp hl
    subst hr
    exact ⟨1, by simp [newRowid, lastRowid], by simp, by simp, by simp⟩
  | some v =>
    have hge := lastRowid_ge rows v hl
    have hv : v < maxRowid := by
      obtain ⟨r, hr, hrv⟩ := lastRowid_mem rows v hl
      have := h r hr
      omega
    refine ⟨v + 1, by simp [newRowid, hl, hv], ?_, ?_, ?_⟩
    · intro r hr
      have := hge r hr
      omega
    · intro hr
      subst hr
      simp [lastRowid] at hl
    · intro w hw
      simp only [Option.some.injEq] at hw
      omega

/-! ## Lemmas on a table filled by Store alone -/

theorem numbered_append {δ : Type} (k : Int) (ds : List δ) (d : δ) :
    numbered k (ds ++ [d]) = numbered k ds ++ [⟨k + ds.length, d⟩] := by
  induction ds generalizing k with
  | nil => simp [numbered]
  | cons x xs ih =>
    have e : k + 1 + (xs.length : Int) = k + ((xs.length + 1 : Nat) : Int) := by
      push_cast
      omega
    show (⟨k, x⟩ : Row δ) :: numbered (k + 1) (xs ++ [d]) = _
    rw [ih (k + 1), e]
    rfl

theorem numbered_id_bounds {δ : Type} (k : Int) (ds : List δ) :
    ∀ a ∈ numbered k ds, k ≤ a.id ∧ a.id < k + ds.length := by
  induction ds generalizing k with
  | nil => simp [numbered]
  | cons x xs ih =>
    intro a ha
    simp only [numbered, List.mem_cons] at ha
    simp only [List.length_cons]
    push_cast
    rcases ha with rfl | ha
    · refine ⟨le_refl _, ?_⟩
      show k < k + ((xs.length : Int) + 1)
      omega
    · have := ih (k + 1) a ha
      omega

theorem numbered_mem_ids {δ : Type} (k : Int) (ds : List δ) (r : Int)
    (h1 : k ≤ r) (h2 : r < k + ds.length) : r ∈ (numbered k ds).map Row.id := by
  induction ds generalizing k with
  | nil => simp at h2; omega
  | cons x xs ih =>
    simp only [numbered, List.map_cons, List.mem_cons]
    simp only [List.length_cons] at h2
    push_cast at h2
    by_cases hr : r = k
    · exact Or.inl hr
    · exact Or.inr (ih (k + 1) (by omega) (by omega))

theorem numbered_map_message {δ : Type} (k : Int) (ds : List δ) :
    (numbered k ds).map Row.message = ds := by
  induction ds generalizing k with
  | nil => rfl
  | cons x xs ih => simp [numbered, ih]

theorem numbered_sorted {δ : Type} (k : Int) (ds : List δ) :
    (numbered k ds).Pairwise (fun a b => a.id ≤ b.id) := by
  induction ds generalizing k with
  | nil => simp [numbered]
  | cons x xs ih =>
    simp only [numbered, List.pairwise_cons]
    refine ⟨?_, ih (k + 1)⟩
    intro a ha
    have := (numbered_id_bounds (k + 1) xs a ha).1
    show k ≤ a.id
    omega

theorem lastRowid_numbered {δ : Type} (k : Int) (d : δ) (ds : List δ) :
    lastRowid (numbered k (d :: ds)) = some (k + ds.length) := by
  induction ds generalizing k d with
  | nil => simp [numbered, lastRowid]
  | cons x xs ih =>
    have h := ih (k + 1) x
    show (match lastRowid (numbered (k + 1) (x :: xs)) with
      | none => some k
      | some v => some (max k v)) = _
    rw [h]
    simp only [List.length_cons, Option.some.injEq]
    push_cast
    rw [max_eq_right (by omega)]
    omega

/-- On a table holding rowids `1 .. n` the next rowid is `n + 1`, up to the largest rowid. -/
theorem newRowid_numbered {δ : Type} (probe : List Int → Option Int) (ds : List δ)
    (h : (ds.length : Int) < maxRowid) :
    newRowid probe (numbered 1 ds) = .ok ((ds.length : Int) + 1) := by
  cases ds with
  | nil => simp [numbered, newRowid, lastRowid]
  | cons d ds =>
    simp only [List.length_cons] at h
    push_cast at h
    have hv : (1 : Int) + ds.length < maxRowid := by omega
    simp only [newRowid, lastRowid_numbered, hv, if_true, List.length_cons]
    push_cast
    congr 1
    omega

/-- On a table holding every rowid `1 .. 2^63 - 1` (or more rows) the insert fails. -/
theorem newRowid_numbered_full {δ : Type} (probe : List Int → Option Int) (ds : List δ)
    (h : ¬ (ds.length : Int) < maxRowid) :
    newRowid probe (numbered 1 ds) = .error .tableFull := by
  cases ds with
  | nil => simp [maxRowid] at h
  | cons d ds =>
    simp only [List.length_cons] at h
    push_cast at h
    have hv : ¬ ((1 : Int) + ds.length < maxRowid) := by omega
    simp only [newRowid, lastRowid_numbered, hv, if_false]
    cases hp : probe (List.map Row.id (numbered 1 (d :: ds))) with
    | none => rfl
    | some r =>
      simp only
      split
      · rename_i hc
        exfalso
        apply hc.2.2
        apply numbered_mem_ids
        · exact hc.1
        · simp only [List.length_cons]
          push_cast
          have := hc.2.1
          simp only [maxRowid] at h
          omega
      · rfl

theorem Store_numbered {δ μ : Type} (env : Env δ μ) (s : SqliteDB δ) (m : μ) (ds : List δ)
    (d : δ) (hdb : s.DB = some (numbered 1 ds)) (hm : env.marshal m = some d)
    (hlen : (ds.length : Int) < maxRowid) :
    s.Store env m =
      (⟨some (numbered 1 (ds ++ [d])), s.Table⟩, intstring ((ds.length : Int) + 1), none) := by
  rw [Store_of_newRowid env s m _ d _ hdb hm (newRowid_numbered env.probe ds hlen)]
  have e : (1 : Int) + ds.length = (ds.length : Int) + 1 := by omega
  rw [insertRow_last, numbered_append, e]
  intro a ha
  have := (numbered_id_bounds 1 ds a ha).2
  show a.id < (ds.length : Int) + 1
  omega

theorem Store_numbered_ok {δ μ : Type} (env : Env δ μ) (s : SqliteDB δ) (m : μ) (ds : List δ)
    (hdb : s.DB = some (numbered 1 ds)) (h : (s.Store env m).2.2 = none) :
    (∃ d, env.marshal m = some d) ∧ (ds.length : Int) < maxRowid := by
  obtain ⟨rows, doc, id, h1, h2, h3, -, -⟩ :=
    Store_ok env s (s.Store env m).1 m (s.Store env m).2.1 (by rw [← h])
  rw [hdb] at h1
  simp only [Option.some.injEq] at h1
  subst h1
  refine ⟨⟨doc, h2⟩, ?_⟩
  by_contra hlen
  rw [newRowid_numbered_full env.probe ds hlen] at h3
  cases h3

/-- Storing messages that all marshal on a table holding rowids `1 .. n`, without running
out of rowids: the documents are appended under the next rowids and the call number `i`
(from 0) returns `string(n + i + 1)`. -/
theorem storeAll_numbered {δ μ : Type} (env : Env δ μ) (ms : List μ) (ds : List δ)
    (s : SqliteDB δ) (hdb : s.DB = some (numbered 1 ds))
    (hm : ∀ m ∈ ms, ∃ d, env.marshal m = some d)
    (hlen : ms = [] ∨ (ds.length : Int) + ms.length ≤ maxRowid) :
    storeAll env s ms =
      (⟨some (numbered 1 (ds ++ ms.filterMap env.marshal)), s.Table⟩,
        (List.range ms.length).map
          (fun (i : Nat) =>
            (intstring ((ds.length : Int) + (i : Int) + 1), (none : Option GoError)))) := by
  induction ms generalizing ds s with
  | nil =>
    cases s
    simp only at hdb
    simp [storeAll, hdb]
  | cons m ms ih =>
    obtain ⟨d, hd⟩ := hm m (List.mem_cons_self _ _)
    have hlen : (ds.length : Int) + (ms.length + 1) ≤ maxRowid := by
      rcases hlen with hnil | hb
      · cases hnil
      · simpa using hb
    have hst := Store_numbered env s m ds d hdb hd (by omega)
    have hrec := ih (ds ++ [d]) (s.Store env m).1 (by rw [hst])
      (fun x hx => hm x (List.mem_cons_of_mem _ hx))
      (Or.inr (by simp only [List.length_append, List.length_singleton]; push_cast; omega))
    simp only [storeAll, hrec]
    rw [hst]
    simp only [List.filterMap_cons, hd, List.append_assoc, List.singleton_append,
      List.length_cons, List.range_succ_eq_map, List.map_cons, List.map_map,
      List.length_append, List.length_singleton, Prod.mk.injEq, true_and, List.cons.injEq]
    refine ⟨⟨by simp, trivial⟩, ?_⟩
    apply List.map_congr_left
    intro i _
    simp only [Function.comp_apply, Prod.mk.injEq, and_true, List.length_nil]
    congr 1
    push_cast
    omega

/-- When every Store of a run on a table holding rowids `1 .. n` returned a nil error, every
message marshalled and the rowids did not run out. -/
theorem storeAll_numbered_ok {δ μ : Type} (env : Env δ μ) (ms : List μ) (ds : List δ)
    (s : SqliteDB δ) (hdb : s.DB = some (numbered 1 ds))
    (h : ∀ res ∈ (storeAll env s ms).2, res.2 = none) :
    (∀ m ∈ ms, ∃ d, env.marshal m = some d) ∧
      (ms = [] ∨ (ds.length : Int) + ms.length ≤ maxRowid) := by
  induction ms generalizing ds s with
  | nil => exact ⟨by simp, Or.inl rfl⟩
  | cons m ms ih =>
    have h0 : (s.Store env m).2.2 = none :=
      h (_, _) (by simp only [storeAll]; exact List.mem_cons_self _ _)
    obtain ⟨⟨d, hd⟩, hlen⟩ := Store_numbered_ok env s m ds hdb h0
    have hst := Store_numbered env s m ds d hdb hd hlen
    have hrec := ih (ds ++ [d]) (s.Store env m).1 (by rw [hst])
      (fun res hres => h res (by simp only [storeAll]; exact List.mem_cons_of_mem _ hres))
    refine ⟨?_, Or.inr ?_⟩
    · intro x hx
      rcases List.mem_cons.mp hx with rfl | hx
      · exact ⟨d, hd⟩
      · exact hrec.1 x hx
    · rcases hrec.2 with hnil | hb
      · subst hnil
        simp only [List.length_cons, List.length_nil]
        push_cast
        omega
      · simp only [List.length_append, List.length_singleton, List.length_cons] at hb ⊢
        push_cast at hb ⊢
        omega

/-! ## Lemmas on sequences of calls -/

theorem Store_count {δ μ : Type} (env : Env δ μ) (s s1 : SqliteDB δ) (m : μ) (tok : String)
    (h : s.Store env m = (s1, tok, none)) :
    ∃ rows rows1 r, s.DB = some rows ∧ s1.DB = some rows1 ∧ rows1.Perm (r :: rows) ∧
      rows.Sublist rows1 ∧ s1.Count = s.Count + 1 := by
  obtain ⟨rows, doc, id, h1, -, -, h4, -⟩ := Store_ok env s s1 m tok h
  refine ⟨rows, insertRow ⟨id, doc⟩ rows, ⟨id, doc⟩, h1, by rw [h4], insertRow_perm _ _, ?_, ?_⟩
  · generalize (⟨id, doc⟩ : Row δ) = r
    clear h h1 h4
    induction rows with
    | nil => simp
    | cons x xs ih =>
      unfold insertRow
      split
      · exact List.sublist_cons_self _ _
      · exact List.Sublist.cons₂ x ih
  · simp only [SqliteDB.Count, h4, h1, insertRow_length]
    push_cast
    rfl

/-- One call keeps the table in place and keeps `rows + removed - stored` as it was. -/
theorem step_balance {δ μ : Type} (env : Env δ μ) (t : Tally δ) (op : Op μ)
    (rows : List (Row δ)) (hdb : t.db.DB = some rows) :
    ∃ rows1, (step env t op).db.DB = some rows1 ∧
      (rows1.length : Int) + (step env t op).removed - (step env t op).stored
        = (rows.length : Int) + t.removed - t.stored := by
  cases op with
  | store m =>
    simp only [step]
    rcases hres : t.db.Store env m with ⟨db, tok, err⟩
    cases err with
    | none =>
      obtain ⟨rows0, rows1, r, h1, h2, h3, -, -⟩ := Store_count env t.db db m tok hres
      rw [hdb] at h1
      cases h1
      refine ⟨rows1, h2, ?_⟩
      have := h3.length_eq
      simp only [List.length_cons] at this
      simp only [this]
      push_cast
      omega
    | some e =>
      have hsame : (t.db.Store env m).1 = t.db := Store_err env t.db m (by simp [hres])
      rw [hres] at hsame
      simp only at hsame
      subst hsame
      exact ⟨rows, hdb, rfl⟩
  | deleteOne id =>
    by_cases hall : rows.all (fun r => (hasID env id r).isSome) = true
    · simp only [step, SqliteDB.DeleteOne, hdb, rowsAffected, hall, if_true]
      refine ⟨_, rfl, ?_⟩
      have := deleteWhere_length (fun r => hasID env id r == some true) rows
      push_cast
      omega
    · simp only [step, SqliteDB.DeleteOne, hdb, hall]
      exact ⟨rows, hdb, rfl⟩
  | deleteAll =>
    simp only [step, SqliteDB.DeleteAll, hdb, rowsAffected]
    refine ⟨_, rfl, ?_⟩
    simp only [List.filter_true, List.length_nil]
    push_cast
    omega

theorem run_balance {δ μ : Type} (env : Env δ μ) (ops : List (Op μ)) (t : Tally δ)
    (rows : List (Row δ)) (hdb : t.db.DB = some rows) :
    ∃ rows1, (ops.foldl (step env) t).db.DB = some rows1 ∧
      (rows1.length : Int) + (ops.foldl (step env) t).removed - (ops.foldl (step env) t).stored
        = (rows.length : Int) + t.removed - t.stored := by
  induction ops generalizing t rows with
  | nil => exact ⟨rows, hdb, rfl⟩
  | cons op ops ih =>
    obtain ⟨rows1, h1, h2⟩ := step_balance env t op rows hdb
    obtain ⟨rows2, h3, h4⟩ := ih (step env t op) rows1 h1
    exact ⟨rows2, h3, by rw [List.foldl_cons, h4, h2]⟩

/-- Stores on a new store: when all of them return a nil error the table holds the
documents of the messages under the rowids `1 .. N`, in the order stored. -/
theorem storeAll_fresh {δ μ : Type} (env : Env δ μ) (table : String) (ms : List μ)
    (h : ∀ res ∈ (storeAll env (CreateSqlite none table) ms).2, res.2 = none) :
    (∀ m ∈ ms, ∃ d, env.marshal m = some d) ∧
    storeAll env (CreateSqlite none table) ms =
      (⟨some (numbered 1 (ms.filterMap env.marshal)), table⟩,
        (List.range ms.length).map
          (fun (i : Nat) => (intstring ((i : Int) + 1), (none : Option GoError)))) := by
  have hdb : (CreateSqlite (none : Option (List (Row δ))) table).DB = some (numbered 1 []) := rfl
  obtain ⟨hm, hlen⟩ := storeAll_numbered_ok env ms [] _ hdb h
  refine ⟨hm, ?_⟩
  rw [storeAll_numbered env ms [] _ hdb hm hlen]
  simp [CreateSqlite]

theorem storeAll_numbered_all_ok {δ μ : Type} (env : Env δ μ) (ms : List μ) (ds : List δ)
    (s : SqliteDB δ) (hdb : s.DB = some (numbered 1 ds))
    (hm : ∀ m ∈ ms, ∃ d, env.marshal m = some d)
    (hlen : ms = [] ∨ (ds.length : Int) + ms.length ≤ maxRowid) :
    ∀ res ∈ (storeAll env s ms).2, res.2 = none := by
  rw [storeAll_numbered env ms ds s hdb hm hlen]
  intro res hres
  obtain ⟨i, -, hi⟩ := List.mem_map.mp hres
  rw [← hi]

/-! ## Store: tokens, rowids, row count -/

/-- C1, evaluated where it breaks: in every run of 55297 Store calls on a new store that all
return a nil error, the calls number 55296 and 55297 return the same token, the one-character
string U+FFFD, because their rowids 55296 and 55297 are surrogate code points. -/
theorem Store_tokens_collide {δ μ : Type} (env : Env δ μ) (table : String) (ms : List μ)
    (hlen : ms.length = 55297)
    (hok : ∀ res ∈ (storeAll env (CreateSqlite none table) ms).2, res.2 = none) :
    (storeAll env (CreateSqlite none table) ms).2[55295]? = some ("\uFFFD", none) ∧
    (storeAll env (CreateSqlite none table) ms).2[55296]? = some ("\uFFFD", none) := by
  rw [(storeAll_fresh env table ms hok).2, hlen]
  simp only [List.getElem?_map]
  rw [List.getElem?_range (by omega), List.getElem?_range (by omega)]
  exact ⟨by decide, by decide⟩

/-- C1, the run: 55297 messages stored on a new store of the small instance all succeed, and
the last two tokens are equal. -/
theorem Store_tokens_collide_witness :
    (List.replicate 55297 (demoMsg "m")).length = 55297 ∧
    (∀ res ∈ (storeAll demoEnv (CreateSqlite none "messages")
        (List.replicate 55297 (demoMsg "m"))).2, res.2 = none) ∧
    (storeAll demoEnv (CreateSqlite none "messages")
        (List.replicate 55297 (demoMsg "m"))).2[55295]? = some ("\uFFFD", none) ∧
    (storeAll demoEnv (CreateSqlite none "messages")
        (List.replicate 55297 (demoMsg "m"))).2[55296]? = some ("\uFFFD", none) := by
  have hok : ∀ res ∈ (storeAll demoEnv (CreateSqlite none "messages")
      (List.replicate 55297 (demoMsg "m"))).2, res.2 = none := by
    exact storeAll_numbered_all_ok demoEnv _ [] _ rfl (fun m _ => ⟨.json m, rfl⟩)
      (Or.inr (by rw [List.length_replicate]; decide))
  exact ⟨List.length_replicate _ _, hok,
    Store_tokens_collide demoEnv "messages" _ (List.length_replicate _ _) hok⟩

/-- C2, as the engine does it: a Store that succeeds on a table whose rowids are all below
2^63 - 1 appends its row under a rowid strictly greater than the rowid of every row that is
in the table at that moment: 1 on an empty table, otherwise the largest rowid present plus
one.  Rowids of deleted rows do not count. -/
theorem Store_rowid_above_live_rows {δ μ : Type} (env : Env δ μ) (s s1 : SqliteDB δ) (m : μ)
    (tok : String) (rows : List (Row δ)) (hdb : s.DB = some rows)
    (hmax : ∀ r ∈ rows, r.id < maxRowid) (h : s.Store env m = (s1, tok, none)) :
    ∃ id doc, env.marshal m = some doc ∧ s1.DB = some (rows ++ [⟨id, doc⟩]) ∧
      tok = intstring id ∧ (∀ r ∈ rows, r.id < id) ∧ (rows = [] → id = 1) ∧
      (∀ v, lastRowid rows = some v → id = v + 1) := by
  obtain ⟨rows0, doc, id, h1, h2, h3, h4, h5⟩ := Store_ok env s s1 m tok h
  rw [hdb] at h1
  cases h1
  obtain ⟨id1, e1, e2, e3, e4⟩ := newRowid_fresh env.probe rows hmax
  rw [h3] at e1
  cases e1
  refine ⟨id, doc, h2, ?_, h5, e2, e3, e4⟩
  rw [h4, insertRow_last _ _ e2]

/-- C2, a run: the store holds rows with the rowids 1 and 3 (the row 2 was deleted); the
next Store appends its row under the rowid 4, the largest rowid present plus one, above
both rows. -/
theorem Store_rowid_above_live_rows_witness :
    demoGap.DB = some [⟨1, .json ⟨"a", "ann@x.org", "bob@y.org", "Hello World"⟩⟩,
      ⟨3, .json ⟨"c", "cy@z.org", "ann@x.org", "bye"⟩⟩] ∧
    lastRowid [(⟨1, .json ⟨"a", "ann@x.org", "bob@y.org", "Hello World"⟩⟩ : Row DemoDoc),
      ⟨3, .json ⟨"c", "cy@z.org", "ann@x.org", "bye"⟩⟩] = some 3 ∧
    (demoGap.Store demoEnv (demoMsg "d")).1.DB =
      some ([⟨1, .json ⟨"a", "ann@x.org", "bob@y.org", "Hello World"⟩⟩,
        ⟨3, .json ⟨"c", "cy@z.org", "ann@x.org", "bye"⟩⟩] ++ [⟨4, .json (demoMsg "d")⟩]) ∧
    (demoGap.Store demoEnv (demoMsg "d")).2.1 = intstring 4 ∧
    (∀ r ∈ [(⟨1, .json ⟨"a", "ann@x.org", "bob@y.org", "Hello World"⟩⟩ : Row DemoDoc),
      ⟨3, .json ⟨"c", "cy@z.org", "ann@x.org", "bye"⟩⟩], r.id < 4) := by
  obtain ⟨id, doc, hm, hdb, htok, hgt, -, hlast⟩ :=
    Store_rowid_above_live_rows demoEnv demoGap (demoGap.Store demoEnv (demoMsg "d")).1
      (demoMsg "d") (demoGap.Store demoEnv (demoMsg "d")).2.1
      [⟨1, .json ⟨"a", "ann@x.org", "bob@y.org", "Hello World"⟩⟩,
        ⟨3, .json ⟨"c", "cy@z.org", "ann@x.org", "bye"⟩⟩]
      (by decide) (by decide) (by decide)
  have hid : id = 4 := hlast 3 (by decide)
  subst hid
  have hdoc : doc = .json (demoMsg "d") := (Option.some.inj hm).symm
  subst hdoc
  exact ⟨by decide, by decide, hdb, htok, hgt⟩

/-- C2 fails as stated: on a new store, Store gives its row the rowid 1; after DeleteAll the
next Store gives its row the rowid 1 again, which is not greater than the rowid assigned
before. -/
theorem rowid_reused_after_DeleteAll :
    ((CreateSqlite none "messages").Store demoEnv (demoMsg "a")).1.DB
      = some [⟨1, .json (demoMsg "a")⟩] ∧
    ((CreateSqlite none "messages").Store demoEnv (demoMsg "a")).2.2 = none ∧
    (((CreateSqlite none "messages").Store demoEnv (demoMsg "a")).1.DeleteAll).2 = none ∧
    (((((CreateSqlite none "messages").Store demoEnv (demoMsg "a")).1.DeleteAll).1.Store
        demoEnv (demoMsg "b")).1.DB = some [⟨1, .json (demoMsg "b")⟩]) ∧
    (((((CreateSqlite none "messages").Store demoEnv (demoMsg "a")).1.DeleteAll).1.Store
        demoEnv (demoMsg "b")).2.2 = none) ∧
    ¬ ((1 : Int) < 1) := by
  decide

/-- Calls made one at a time: a Store that returns a nil error adds one row and keeps every
row that was there; N Store calls on a new store that all return a nil error, in any order
of the messages, leave Count() = N; and after any sequence of Store, DeleteOne and DeleteAll
calls on a new store Count() is the number of Store calls that returned a nil error minus
the number of rows the delete statements removed. -/
theorem Count_eq_stored_sub_removed {δ μ : Type} (env : Env δ μ) :
    (∀ (s s1 : SqliteDB δ) (m : μ) (tok : String), s.Store env m = (s1, tok, none) →
      ∃ rows rows1 r, s.DB = some rows ∧ s1.DB = some rows1 ∧ rows1.Perm (r :: rows) ∧
        rows.Sublist rows1 ∧ s1.Count = s.Count + 1) ∧
    (∀ (table : String) (ms : List μ),
      (∀ res ∈ (storeAll env (CreateSqlite none table) ms).2, res.2 = none) →
      (storeAll env (CreateSqlite none table) ms).1.Count = (ms.length : Int)) ∧
    (∀ (table : String) (ops : List (Op μ)),
      (run env (CreateSqlite (none : Option (List (Row δ))) table) ops).db.Count
        = ((run env (CreateSqlite none table) ops).stored : Int)
          - (run env (CreateSqlite none table) ops).removed) := by
  refine ⟨Store_count env, ?_, ?_⟩
  · intro table ms hok
    obtain ⟨hm, heq⟩ := storeAll_fresh env table ms hok
    rw [heq]
    have hl : (ms.filterMap env.marshal).length = ms.length := by
      clear heq hok
      induction ms with
      | nil => rfl
      | cons x xs ih =>
        obtain ⟨d, hd⟩ := hm x (List.mem_cons_self _ _)
        simp [List.filterMap_cons, hd, ih (fun y hy => hm y (List.mem_cons_of_mem _ hy))]
    have hn : ∀ (k : Int) (ds : List δ), (numbered k ds).length = ds.length := by
      intro k ds
      rw [← List.length_map (numbered k ds) Row.message, numbered_map_message]
    simp only [SqliteDB.Count, hn, hl]
  · intro table ops
    obtain ⟨rows1, h1, h2⟩ := run_balance env ops ⟨CreateSqlite none table, 0, 0⟩ [] rfl
    simp only [run, SqliteDB.Count, h1]
    simp only [List.length_nil] at h2
    push_cast at h2 ⊢
    omega

/-- The 25 Store calls of the test made one at a time on a new store give Count() = 25. -/
theorem Count_eq_stored_sub_removed_witness :
    (∀ res ∈ (storeAll demoEnv (CreateSqlite none "messages")
        ((List.range 25).map (fun i => demoMsg (toString i)))).2, res.2 = none) ∧
    (storeAll demoEnv (CreateSqlite none "messages")
        ((List.range 25).map (fun i => demoMsg (toString i)))).1.Count = 25 :=
  ⟨by decide, (Count_eq_stored_sub_removed demoEnv).2.1 "messages" _ (by decide)⟩

/-! ## Store calls that overlap on `:memory:` -/

/-- C3, evaluated where it breaks: CreateSqlite(":memory:", "messages"), then 25 Store calls
that overlap in time, each served by a connection of its own.  Only the call served by the
first connection returns a nil error; the 24 others meet a database without the table.
After the calls Count() is 1 on the first connection and -1 on every other one, among them
the connections the pool keeps or opens later: it is 25 on none. -/
theorem Count_after_overlapping_Stores :
    (storeOverlapping demoEnv (CreateSqliteMemory "messages") 0 demoMsgs25).2.length = 25 ∧
    ((storeOverlapping demoEnv (CreateSqliteMemory "messages") 0 demoMsgs25).2.filter
      (fun res => res.2 == none)).length = 1 ∧
    (∀ res ∈ ((storeOverlapping demoEnv (CreateSqliteMemory "messages") 0 demoMsgs25).2.drop 1),
      res.2 = some .noSuchTable) ∧
    (storeOverlapping demoEnv (CreateSqliteMemory "messages") 0 demoMsgs25).1.Count 0 = 1 ∧
    (∀ c, 1 ≤ c →
      (storeOverlapping demoEnv (CreateSqliteMemory "messages") 0 demoMsgs25).1.Count c = -1) ∧
    (∀ c, (storeOverlapping demoEnv (CreateSqliteMemory "messages") 0 demoMsgs25).1.Count c
      ≠ 25) := by
  have hlen : (storeOverlapping demoEnv (CreateSqliteMemory "messages") 0
      demoMsgs25).1.conns.length = 25 := by decide
  have hsmall : ∀ c, c < 25 → 1 ≤ c →
      (storeOverlapping demoEnv (CreateSqliteMemory "messages") 0 demoMsgs25).1.Count c
        = -1 := by decide
  have hbig : ∀ c, 1 ≤ c →
      (storeOverlapping demoEnv (CreateSqliteMemory "messages") 0 demoMsgs25).1.Count c
        = -1 := by
    intro c hc
    by_cases h : c < 25
    · exact hsmall c h hc
    · have hnone : (storeOverlapping demoEnv (CreateSqliteMemory "messages") 0
          demoMsgs25).1.conns.get? c = none := by
        rw [List.get?_eq_none]
        omega
      simp only [MemoryPool.Count, MemoryPool.onConn, hnone]
      rfl
  have h0 : (storeOverlapping demoEnv (CreateSqliteMemory "messages") 0 demoMsgs25).1.Count 0
      = 1 := by decide
  refine ⟨by decide, by decide, by decide, h0, hbig, ?_⟩
  intro c
  by_cases hc : 1 ≤ c
  · rw [hbig c hc]
    decide
  · have : c = 0 := by omega
    subst this
    rw [h0]
    decide

/-! ## DeleteOne and DeleteAll -/

theorem hasID_isSome {δ μ : Type} (env : Env δ μ) (x : String) (r : Row δ) :
    (hasID env x r).isSome = true ↔ env.extract r.message ["ID"] ≠ .malformed := by
  unfold hasID
  cases env.extract r.message ["ID"] <;> simp

theorem hasID_true {δ μ : Type} (env : Env δ μ) (x : String) (r : Row δ) :
    (hasID env x r == some true) = (env.extract r.message ["ID"] == .text x) := by
  unfold hasID
  cases h : env.extract r.message ["ID"] with
  | malformed => rfl
  | null => rfl
  | text t =>
    by_cases ht : t = x
    · subst ht
      simp
    · have : ¬ (Extracted.text t = Extracted.text x) := fun e => ht (Extracted.text.inj e)
      simp [ht, this]

/-- DeleteOne on a store whose table exists, in closed form. -/
theorem DeleteOne_eq {δ μ : Type} (env : Env δ μ) (s : SqliteDB δ) (rows : List (Row δ))
    (x : String) (hdb : s.DB = some rows) :
    s.DeleteOne env x =
      if ∀ r ∈ rows, env.extract r.message ["ID"] ≠ .malformed then
        (⟨some (rows.filter (fun r => !(env.extract r.message ["ID"] == .text x))), s.Table⟩,
          none)
      else (s, some .malformedJSON) := by
  have hall : (rows.all (fun r => (hasID env x r).isSome) = true)
      ↔ ∀ r ∈ rows, env.extract r.message ["ID"] ≠ .malformed := by
    rw [List.all_eq_true]
    exact forall₂_congr (fun r _ => hasID_isSome env x r)
  have hf : deleteWhere (fun r => hasID env x r == some true) rows
      = rows.filter (fun r => !(env.extract r.message ["ID"] == .text x)) := by
    rw [deleteWhere_eq_filter]
    apply List.filter_congr
    intro r _
    rw [hasID_true]
  simp only [SqliteDB.DeleteOne, hdb, hf]
  by_cases h : ∀ r ∈ rows, env.extract r.message ["ID"] ≠ .malformed
  · rw [if_pos (hall.mpr h), if_pos h]
  · rw [if_neg (fun hc => h (hall.mp hc)), if_neg h]

/-- C4, as the engine does it: on a store whose table exists, DeleteOne(x) returns a nil
error exactly when the engine can read the ID of every document of the table; otherwise it
returns an error and removes nothing.  When it returns a nil error it has removed the rows
whose embedded ID is x and no other row: the table is the old table without those rows,
every other row in place, and Count() has dropped by the number of rows removed.  When
every document can be read and no row has the identity x, the store and Count() are
unchanged and the error is nil. -/
theorem DeleteOne_removes_exactly {δ μ : Type} (env : Env δ μ) (s : SqliteDB δ)
    (rows : List (Row δ)) (x : String) (hdb : s.DB = some rows) :
    ((s.DeleteOne env x).2 = none ↔ ∀ r ∈ rows, env.extract r.message ["ID"] ≠ .malformed) ∧
    ((s.DeleteOne env x).2 ≠ none → (s.DeleteOne env x).1 = s) ∧
    ((s.DeleteOne env x).2 = none →
      (s.DeleteOne env x).1.Table = s.Table ∧
      (s.DeleteOne env x).1.DB
        = some (rows.filter (fun r => !(env.extract r.message ["ID"] == .text x))) ∧
      (∀ r, r ∈ rows.filter (fun r => !(env.extract r.message ["ID"] == .text x))
        ↔ r ∈ rows ∧ env.extract r.message ["ID"] ≠ .text x) ∧
      (rows.filter (fun r => !(env.extract r.message ["ID"] == .text x))).Sublist rows ∧
      (s.DeleteOne env x).1.Count = s.Count
        - ((rows.filter (fun r => env.extract r.message ["ID"] == .text x)).length : Int)) ∧
    ((∀ r ∈ rows, env.extract r.message ["ID"] ≠ .malformed) →
      (∀ r ∈ rows, env.extract r.message ["ID"] ≠ .text x) →
      s.DeleteOne env x = (s, none) ∧ (s.DeleteOne env x).1.Count = s.Count) := by
  have heq := DeleteOne_eq env s rows x hdb
  by_cases h : ∀ r ∈ rows, env.extract r.message ["ID"] ≠ .malformed
  · rw [if_pos h] at heq
    refine ⟨⟨fun _ => h, fun _ => by rw [heq]⟩, by simp [heq], ?_, ?_⟩
    · intro _
      rw [heq]
      refine ⟨rfl, rfl, ?_, List.filter_sublist _, ?_⟩
      · intro r
        simp [List.mem_filter]
      · have hlen := deleteWhere_length
          (fun r => env.extract r.message ["ID"] == .text x) rows
        rw [deleteWhere_eq_filter] at hlen
        simp only [SqliteDB.Count, hdb]
        omega
    · intro _ hno
      have hall : rows.filter (fun r => !(env.extract r.message ["ID"] == .text x)) = rows := by
        rw [List.filter_eq_self]
        intro r hr
        simpa using hno r hr
      rw [heq, hall]
      cases s
      simp only at hdb
      subst hdb
      exact ⟨rfl, rfl⟩
  · rw [if_neg h] at heq
    refine ⟨by simp [heq, h], by simp [heq], by simp [heq], ?_⟩
    intro h2
    exact absurd h2 h

/-- C4, the run of the test: identities "0" .. "24" stored, DeleteOne("1") returns a nil
error and leaves Count() = 24, and a DeleteOne of the absent identity "34789" returns a
nil error and leaves the store as it was, with Count() = 24. -/
theorem DeleteOne_removes_exactly_witness :
    demoStore25.Count = 25 ∧
    (demoStore25.DeleteOne demoEnv "1").2 = none ∧
    (demoStore25.DeleteOne demoEnv "1").1.Count = 24 ∧
    (demoStore25.DeleteOne demoEnv "1").1.DeleteOne demoEnv "34789"
      = ((demoStore25.DeleteOne demoEnv "1").1, none) ∧
    ((demoStore25.DeleteOne demoEnv "1").1.DeleteOne demoEnv "34789").1.Count
      = (demoStore25.DeleteOne demoEnv "1").1.Count :=
  ⟨by decide, by decide, by decide,
    (DeleteOne_removes_exactly demoEnv (demoStore25.DeleteOne demoEnv "1").1
      ((demoStore25.DeleteOne demoEnv "1").1.DB.getD []) "34789"
      (by decide)).2.2.2 (by decide) (by decide)⟩

/-- C4 fails as stated: the table holds one row, whose document is not JSON; no row has the
identity "x", yet DeleteOne("x") returns an error. -/
theorem DeleteOne_fails_on_malformed_row :
    demoJunk.DB = some [⟨1, .junk "not json"⟩] ∧
    (∀ r ∈ [(⟨1, .junk "not json"⟩ : Row DemoDoc)],
      demoEnv.extract r.message ["ID"] ≠ .text "x") ∧
    demoJunk.DeleteOne demoEnv "x" = (demoJunk, some .malformedJSON) := by
  decide

/-- C5: after a DeleteAll that returns a nil error the table is empty and still there,
Count() is 0 and not -1, and a Store of any message that marshals succeeds (its row gets
the rowid 1). -/
theorem DeleteAll_empties {δ μ : Type} (env : Env δ μ) (s s1 : SqliteDB δ)
    (h : s.DeleteAll = (s1, none)) :
    s1.DB = some [] ∧ s1.Table = s.Table ∧ s1.Count = 0 ∧ s1.Count ≠ -1 ∧
    ∀ m doc, env.marshal m = some doc →
      s1.Store env m = (⟨some [⟨1, doc⟩], s.Table⟩, intstring 1, none) := by
  unfold SqliteDB.DeleteAll at h
  cases hdb : s.DB with
  | none => simp [hdb] at h
  | some rows =>
    simp only [hdb, Prod.mk.injEq, and_true] at h
    subst h
    refine ⟨rfl, rfl, rfl, by simp [SqliteDB.Count], ?_⟩
    intro m doc hm
    simp [SqliteDB.Store, hm, execInsert, newRowid, lastRowid, insertRow]

/-- C5, the run of the test: 25 stores, DeleteAll, Count() = 0. -/
theorem DeleteAll_empties_witness :
    demoStore25.Count = 25 ∧ demoStore25.DeleteAll = (demoStore25.DeleteAll.1, none) ∧
    demoStore25.DeleteAll.1.Count = 0 ∧
    demoStore25.DeleteAll.1.Store demoEnv (demoMsg "new")
      = (⟨some [⟨1, .json (demoMsg "new")⟩], "messages"⟩, intstring 1, none) :=
  ⟨by decide, by decide,
    (DeleteAll_empties demoEnv demoStore25 _ (by decide)).2.2.1,
    (DeleteAll_empties demoEnv demoStore25 _ (by decide)).2.2.2.2 (demoMsg "new") _ rfl⟩

/-! ## Search and List -/

/-- A statement that meets no malformed document hands out the matching rows without the
first `skip` of them, cut to `left` rows when there is a bound. -/
theorem stepSelect_ok {δ : Type} (p : Row δ → Option Bool) (rows : List (Row δ))
    (skip : Nat) (left : Option Nat) (h : ∀ r ∈ rows, p r ≠ none) :
    stepSelect p rows skip left =
      (match left with
        | none => (rows.filter (fun r => p r == some true)).drop skip
        | some n => ((rows.filter (fun r => p r == some true)).drop skip).take n,
       none) := by
  induction rows generalizing skip left with
  | nil => cases left <;> simp [stepSelect]
  | cons r rs ih =>
    have ih1 := fun sk lf => ih sk lf (fun a ha => h a (List.mem_cons_of_mem _ ha))
    have hr := h r (List.mem_cons_self _ _)
    by_cases h0 : left = some 0
    · subst h0
      simp [stepSelect]
    · cases hp : p r with
      | none => exact absurd hp hr
      | some b =>
        cases b with
        | false =>
          simp only [stepSelect, h0, if_false, hp, ih1]
          simp [List.filter_cons, hp]
        | true =>
          by_cases hs : 0 < skip
          · simp only [stepSelect, h0, if_false, hp, hs, if_true, ih1]
            obtain ⟨k, rfl⟩ : ∃ k, skip = k + 1 := ⟨skip - 1, by omega⟩
            simp [List.filter_cons, hp]
          · have hs0 : skip = 0 := by omega
            subst hs0
            simp only [stepSelect, h0, if_false, hp, lt_self_iff_false, ih1]
            cases left with
            | none => simp [List.filter_cons, hp]
            | some n =>
              obtain ⟨k, rfl⟩ : ∃ k, n = k + 1 :=
                ⟨n - 1, by
                  have : n ≠ 0 := fun e => h0 (by rw [e])
                  omega⟩
              simp [List.filter_cons, hp]

theorem filter_insertRow_sorted {δ : Type} (q : Row δ → Bool) (r : Row δ)
    (rows : List (Row δ)) (hs : rows.Pairwise (fun a b => a.id ≤ b.id)) :
    (insertRow r rows).filter q
      = if q r then insertRow r (rows.filter q) else rows.filter q := by
  induction rows with
  | nil => by_cases hq : q r = true <;> simp [insertRow, hq]
  | cons x xs ih =>
    rw [List.pairwise_cons] at hs
    have ih1 := ih hs.2
    by_cases hle : r.id ≤ x.id
    · have hins : insertRow r (x :: xs) = r :: x :: xs := by simp [insertRow, hle]
      rw [hins]
      by_cases hq : q r = true
      · rw [List.filter_cons_of_pos hq, if_pos hq]
        have hhead : insertRow r ((x :: xs).filter q) = r :: (x :: xs).filter q := by
          cases hf : (x :: xs).filter q with
          | nil => rfl
          | cons y ys =>
            have hy : y ∈ (x :: xs).filter q := by rw [hf]; exact List.mem_cons_self _ _
            have hy2 := (List.mem_filter.mp hy).1
            have hxy : x.id ≤ y.id := by
              rcases List.mem_cons.mp hy2 with rfl | hy3
              · exact le_refl _
              · exact hs.1 y hy3
            have : r.id ≤ y.id := le_trans hle hxy
            simp [insertRow, this]
        rw [hhead]
      · rw [List.filter_cons_of_neg hq, if_neg hq]
    · have hins : insertRow r (x :: xs) = x :: insertRow r xs := by simp [insertRow, hle]
      rw [hins]
      by_cases hx : q x = true
      · rw [List.filter_cons_of_pos hx, List.filter_cons_of_pos hx, ih1]
        by_cases hq : q r = true
        · simp [hq, insertRow, hle]
        · simp [hq]
      · rw [List.filter_cons_of_neg hx, List.filter_cons_of_neg hx, ih1]

theorem filter_orderById {δ : Type} (q : Row δ → Bool) (rows : List (Row δ)) :
    (orderById rows).filter q = orderById (rows.filter q) := by
  induction rows with
  | nil => rfl
  | cons x xs ih =>
    simp only [orderById]
    rw [filter_insertRow_sorted q x _ (orderById_sorted xs), ih]
    by_cases hq : q x = true
    · rw [if_pos hq, List.filter_cons_of_pos hq]
      rfl
    · rw [if_neg hq, List.filter_cons_of_neg hq]

theorem searchPred_isSome {δ μ : Type} (env : Env δ μ) (field : List String)
    (pattern : String) (r : Row δ) :
    searchPred env field pattern r ≠ none ↔
      env.extract r.message field ≠ .malformed ∧ pattern.utf8ByteSize ≤ 50000 := by
  unfold searchPred likePatternLimit
  by_cases hl : 50000 < pattern.utf8ByteSize
  · cases env.extract r.message field <;> simp [hl]
  · cases env.extract r.message field <;> simp [hl] <;> omega

theorem searchPred_true {δ μ : Type} (env : Env δ μ) (field : List String)
    (pattern : String) (r : Row δ)
    (h : env.extract r.message field ≠ .malformed ∧ pattern.utf8ByteSize ≤ 50000) :
    (searchPred env field pattern r == some true)
      = sqlLike (env.extract r.message field) pattern := by
  have hl : ¬ (50000 < pattern.utf8ByteSize) := by omega
  unfold searchPred likePatternLimit
  cases hv : env.extract r.message field with
  | malformed => exact absurd hv h.1
  | null => cases hb : sqlLike Extracted.null pattern <;> simp [hb, hl]
  | text t => cases hb : sqlLike (Extracted.text t) pattern <;> simp [hb, hl]

/-- Search on a store whose table exists, in closed form, when the engine can evaluate the
predicate on every row: it can read the searched field of every document and the pattern
is within the limit. -/
theorem Search_eq {δ μ : Type} (env : Env δ μ) (s : SqliteDB δ) (rows : List (Row δ))
    (hdb : s.DB = some rows) (kind q : String) (start limit : Int)
    (hok : ∀ r ∈ rows, env.extract r.message (searchField kind) ≠ .malformed ∧
      ("%" ++ q ++ "%").utf8ByteSize ≤ 50000) :
    s.Search env kind q start limit =
      (some (((limitOffset limit start (orderById (rows.filter
          (fun r => sqlLike (env.extract r.message (searchField kind)) ("%" ++ q ++ "%"))))).map
            Row.message).filterMap env.unmarshal),
        (((rows.filter
          (fun r => sqlLike (env.extract r.message (searchField kind)) ("%" ++ q ++ "%"))).length
            : Nat) : Int),
        none) := by
  have hsome : ∀ r ∈ rows, searchPred env (searchField kind) (wrapQuery q) r ≠ none :=
    fun r hr => (searchPred_isSome env _ _ r).mpr (hok r hr)
  have hfil : rows.filter (fun r => searchPred env (searchField kind) (wrapQuery q) r == some true)
      = rows.filter
        (fun r => sqlLike (env.extract r.message (searchField kind)) ("%" ++ q ++ "%")) := by
    apply List.filter_congr
    intro r hr
    exact searchPred_true env _ _ r (hok r hr)
  have hstep := stepSelect_ok (searchPred env (searchField kind) (wrapQuery q))
    (orderById rows) start.toNat (if limit < 0 then none else some limit.toNat)
    (fun r hr => hsome r ((orderById_perm rows).subset hr))
  rw [filter_orderById, hfil] at hstep
  have hcount : countWhere (searchPred env (searchField kind) (wrapQuery q)) rows
      = .ok (rows.filter
        (fun r => sqlLike (env.extract r.message (searchField kind)) ("%" ++ q ++ "%"))).length := by
    have hall : rows.all (fun r => (searchPred env (searchField kind) (wrapQuery q) r).isSome)
        = true := by
      rw [List.all_eq_true]
      intro r hr
      exact Option.isSome_iff_ne_none.mpr (hsome r hr)
    simp only [countWhere, hall, if_true, hfil]
  have hpage : (match (if limit < 0 then none else some limit.toNat : Option Nat) with
        | none => (orderById (rows.filter
            (fun r => sqlLike (env.extract r.message (searchField kind)) ("%" ++ q ++ "%")))).drop
              start.toNat
        | some n => ((orderById (rows.filter
            (fun r => sqlLike (env.extract r.message (searchField kind)) ("%" ++ q ++ "%")))).drop
              start.toNat).take n)
      = limitOffset limit start (orderById (rows.filter
          (fun r => sqlLike (env.extract r.message (searchField kind)) ("%" ++ q ++ "%")))) := by
    unfold limitOffset
    by_cases hl : limit < 0 <;> simp [hl]
  rw [hpage] at hstep
  simp only [SqliteDB.Search, hdb, hstep, hcount, decodeRows_eq, List.nil_append]
  split
  · rename_i heq
    simp at heq
  · rename_i heq
    simp only [Prod.mk.injEq] at heq
    rw [← heq.1]

/-- Search returns a nil error exactly when the table exists and the engine can evaluate the
predicate on every row. -/
theorem Search_ok_iff {δ μ : Type} (env : Env δ μ) (s : SqliteDB δ) (kind q : String)
    (start limit : Int) :
    (s.Search env kind q start limit).2.2 = none ↔
      ∃ rows, s.DB = some rows ∧
        ∀ r ∈ rows, env.extract r.message (searchField kind) ≠ .malformed ∧
          ("%" ++ q ++ "%").utf8ByteSize ≤ 50000 := by
  constructor
  · intro h
    cases hdb : s.DB with
    | none => simp [SqliteDB.Search, hdb] at h
    | some rows =>
      refine ⟨rows, rfl, ?_⟩
      by_contra hbad
      have hall : ¬ (rows.all
          (fun r => (searchPred env (searchField kind) (wrapQuery q) r).isSome) = true) := by
        rw [List.all_eq_true]
        intro hc
        apply hbad
        intro r hr
        exact (searchPred_isSome env _ _ r).mp (Option.isSome_iff_ne_none.mp (hc r hr))
      simp only [SqliteDB.Search, hdb, countWhere, hall] at h
      split at h <;> simp at h
  · rintro ⟨rows, hdb, hok⟩
    rw [Search_eq env s rows hdb kind q start limit hok]

/-- List on a store whose table exists, in closed form. -/
theorem List_eq {δ μ : Type} (env : Env δ μ) (s : SqliteDB δ) (rows : List (Row δ))
    (hdb : s.DB = some rows) (start limit : Int) :
    s.List env start limit =
      (some (((limitOffset limit start (orderById rows)).map Row.message).filterMap
        env.unmarshal), none) := by
  simp only [SqliteDB.List, hdb, decodeRows_eq, List.nil_append]

/-- C7: the selector "to" matches the path Raw.To, "from" matches Raw.From, and every other
kind string matches Raw.Data: such a Search returns what the Search with kind "body"
returns for the same query, offset and limit.  The predicate of a Search is LIKE on the
path of its kind: the search returns a nil error exactly when the table exists and the
engine can evaluate the predicate on every row (it can read that path in every document
and the pattern is at most 50000 bytes long), and then its page and count are those of
the rows matching on that path. -/
theorem Search_kind_default {δ μ : Type} (env : Env δ μ) :
    searchField "to" = ["Raw", "To"] ∧ searchField "from" = ["Raw", "From"] ∧
    searchField "body" = ["Raw", "Data"] ∧
    (∀ (s : SqliteDB δ) (kind q : String) (start limit : Int),
      (s.Search env kind q start limit).2.2 = none ↔
        ∃ rows, s.DB = some rows ∧
          ∀ r ∈ rows, env.extract r.message (searchField kind) ≠ .malformed ∧
            ("%" ++ q ++ "%").utf8ByteSize ≤ 50000) ∧
    (∀ (s : SqliteDB δ) (rows : List (Row δ)) (kind q : String) (start limit : Int),
      s.DB = some rows →
      (∀ r ∈ rows, env.extract r.message (searchField kind) ≠ .malformed ∧
        ("%" ++ q ++ "%").utf8ByteSize ≤ 50000) →
      s.Search env kind q start limit =
        (some (((limitOffset limit start (orderById (rows.filter
            (fun r => sqlLike (env.extract r.message (searchField kind)) ("%" ++ q ++ "%"))))).map
              Row.message).filterMap env.unmarshal),
          (((rows.filter
            (fun r => sqlLike (env.extract r.message (searchField kind)) ("%" ++ q ++ "%"))).length
              : Nat) : Int),
          none)) ∧
    (∀ kind : String, kind ≠ "to" → kind ≠ "from" →
      searchField kind = ["Raw", "Data"] ∧
      ∀ (s : SqliteDB δ) (q : String) (start limit : Int),
        s.Search env kind q start limit = s.Search env "body" q start limit) := by
  refine ⟨by decide, by decide, by decide, ?_, ?_, ?_⟩
  · intro s kind q start limit
    exact Search_ok_iff env s kind q start limit
  · intro s rows kind q start limit hdb hok
    exact Search_eq env s rows hdb kind q start limit hok
  · intro kind h1 h2
    have hk : searchField kind = ["Raw", "Data"] := by simp [searchField, h1, h2]
    have hb : searchField "body" = ["Raw", "Data"] := by decide
    refine ⟨hk, ?_⟩
    intro s q start limit
    simp only [SqliteDB.Search, hk, hb]

/-- C7, at the kinds named by the claim: on the three-message store the searches with kind
"", "recipient", "sender" and "To" return what the search with kind "body" returns. -/
theorem Search_kind_default_witness :
    demoMail.Search demoEnv "" "hello" 0 10 = demoMail.Search demoEnv "body" "hello" 0 10 ∧
    demoMail.Search demoEnv "recipient" "ann" 0 10 = demoMail.Search demoEnv "body" "ann" 0 10 ∧
    demoMail.Search demoEnv "sender" "ann" 0 10 = demoMail.Search demoEnv "body" "ann" 0 10 ∧
    demoMail.Search demoEnv "To" "ann" 1 1 = demoMail.Search demoEnv "body" "ann" 1 1 ∧
    demoMail.Search demoEnv "to" "ann" 0 10 ≠ demoMail.Search demoEnv "body" "ann" 0 10 :=
  ⟨((Search_kind_default demoEnv).2.2.2.2.2 "" (by decide) (by decide)).2 demoMail "hello" 0 10,
   ((Search_kind_default demoEnv).2.2.2.2.2 "recipient" (by decide) (by decide)).2 demoMail "ann" 0 10,
   ((Search_kind_default demoEnv).2.2.2.2.2 "sender" (by decide) (by decide)).2 demoMail "ann" 0 10,
   ((Search_kind_default demoEnv).2.2.2.2.2 "To" (by decide) (by decide)).2 demoMail "ann" 1 1,
   by decide⟩

/-- C8: when Search returns a nil error, its count is the number of all rows of the table
that satisfy the predicate of the search, it is the count returned for every other offset
and limit, and it is at least the length of the returned page. -/
theorem Search_count_total {δ μ : Type} (env : Env δ μ) (s : SqliteDB δ) (kind q : String)
    (start limit : Int) (page : Option (List μ)) (count : Int)
    (h : s.Search env kind q start limit = (page, count, none)) :
    ∃ rows msgs, s.DB = some rows ∧ page = some msgs ∧
      count = (((rows.filter
        (fun r => sqlLike (env.extract r.message (searchField kind)) ("%" ++ q ++ "%"))).length
          : Nat) : Int) ∧
      (∀ start2 limit2 : Int, (s.Search env kind q start2 limit2).2.1 = count) ∧
      (msgs.length : Int) ≤ count := by
  obtain ⟨rows, hdb, hok⟩ := (Search_ok_iff env s kind q start limit).mp (by rw [h])
  rw [Search_eq env s rows hdb kind q start limit hok] at h
  simp only [Prod.mk.injEq, and_true] at h
  obtain ⟨h1, h2⟩ := h
  refine ⟨rows, _, hdb, h1.symm, h2.symm, ?_, ?_⟩
  · intro start2 limit2
    rw [Search_eq env s rows hdb kind q start2 limit2 hok, ← h2]
  · rw [← h2]
    have l1 := List.length_filterMap_le env.unmarshal
      ((limitOffset limit start (orderById (rows.filter
        (fun r => sqlLike (env.extract r.message (searchField kind)) ("%" ++ q ++ "%"))))).map
          Row.message)
    have l2 := (limitOffset_sublist limit start (orderById (rows.filter
        (fun r => sqlLike (env.extract r.message (searchField kind)) ("%" ++ q ++ "%"))))).length_le
    have l3 := (orderById_perm (rows.filter
        (fun r => sqlLike (env.extract r.message (searchField kind)) ("%" ++ q ++ "%")))).length_eq
    rw [List.length_map] at l1
    exact_mod_cast (l1.trans (l2.trans (le_of_eq l3)))

/-! ## LIKE -/

theorem anySuffix_iff (f : List Char → Bool) (t : List Char) :
    anySuffix f t = true ↔ ∃ pre suf, t = pre ++ suf ∧ f suf = true := by
  induction t with
  | nil =>
    constructor
    · intro h
      exact ⟨[], [], rfl, h⟩
    · rintro ⟨pre, suf, h, hf⟩
      have : suf = [] := (List.append_eq_nil.mp h.symm).2
      subst this
      exact hf
  | cons c cs ih =>
    simp only [anySuffix, Bool.or_eq_true, ih]
    constructor
    · rintro (h | ⟨pre, suf, h, hf⟩)
      · exact ⟨[], c :: cs, rfl, h⟩
      · exact ⟨c :: pre, suf, by rw [h]; rfl, hf⟩
    · rintro ⟨pre, suf, h, hf⟩
      cases pre with
      | nil =>
        simp only [List.nil_append] at h
        subst h
        exact Or.inl hf
      | cons p pre =>
        simp only [List.cons_append, List.cons.injEq] at h
        exact Or.inr ⟨pre, suf, h.2, hf⟩

theorem patternCompare_any (ps t : List Char) :
    patternCompare ('%' :: ps) t = anySuffix (patternCompare ps) t := by
  simp [patternCompare]

theorem patternCompare_cons_nil (p : Char) (ps : List Char) (hp : p ≠ '%') :
    patternCompare (p :: ps) [] = false := by
  simp [patternCompare, hp]

theorem patternCompare_cons_cons (p : Char) (ps : List Char) (c : Char) (cs : List Char)
    (hp : p ≠ '%') :
    patternCompare (p :: ps) (c :: cs)
      = ((p == '_' || p.toLower == c.toLower) && patternCompare ps cs) := by
  simp [patternCompare, hp]

/-- A pattern that ends in `%` matches a text exactly when the pattern without it matches
a beginning of the text. -/
theorem patternCompare_append_any (ps t : List Char) :
    patternCompare (ps ++ ['%']) t = true ↔
      ∃ mid post, t = mid ++ post ∧ patternCompare ps mid = true := by
  induction ps generalizing t with
  | nil =>
    rw [List.nil_append, patternCompare_any, anySuffix_iff]
    constructor
    · intro _
      exact ⟨[], t, rfl, rfl⟩
    · intro _
      exact ⟨t, [], by simp, rfl⟩
  | cons p ps ih =>
    by_cases hp : p = '%'
    · subst hp
      rw [List.cons_append, patternCompare_any, anySuffix_iff]
      constructor
      · rintro ⟨pre, suf, h, hs⟩
        obtain ⟨mid, post, h2, hm⟩ := (ih suf).mp hs
        refine ⟨pre ++ mid, post, by rw [h, h2, List.append_assoc], ?_⟩
        rw [patternCompare_any, anySuffix_iff]
        exact ⟨pre, mid, rfl, hm⟩
      · rintro ⟨mid1, post, h, hm⟩
        rw [patternCompare_any, anySuffix_iff] at hm
        obtain ⟨pre, mid, h2, hm2⟩ := hm
        exact ⟨pre, mid ++ post, by rw [h, h2, List.append_assoc],
          (ih _).mpr ⟨mid, post, rfl, hm2⟩⟩
    · cases t with
      | nil =>
        rw [List.cons_append, patternCompare_cons_nil _ _ hp]
        constructor
        · intro h
          cases h
        · rintro ⟨mid, post, h, hm⟩
          have : mid = [] := (List.append_eq_nil.mp h.symm).1
          subst this
          rw [patternCompare_cons_nil _ _ hp] at hm
          cases hm
      | cons c cs =>
        rw [List.cons_append, patternCompare_cons_cons _ _ _ _ hp, Bool.and_eq_true]
        constructor
        · rintro ⟨hc, hs⟩
          obtain ⟨mid, post, h, hm⟩ := (ih cs).mp hs
          refine ⟨c :: mid, post, by rw [h]; rfl, ?_⟩
          rw [patternCompare_cons_cons _ _ _ _ hp, Bool.and_eq_true]
          exact ⟨hc, hm⟩
        · rintro ⟨mid1, post, h, hm⟩
          cases mid1 with
          | nil =>
            rw [patternCompare_cons_nil _ _ hp] at hm
            cases hm
          | cons d mid =>
            simp only [List.cons_append, List.cons.injEq] at h
            obtain ⟨rfl, h⟩ := h
            rw [patternCompare_cons_cons _ _ _ _ hp, Bool.and_eq_true] at hm
            exact ⟨hm.1, (ih cs).mpr ⟨mid, post, h, hm.2⟩⟩

/-- The pattern `%q%` matches a text exactly when `q` matches a contiguous part of it. -/
theorem patternCompare_wrap (q t : List Char) :
    patternCompare ('%' :: (q ++ ['%'])) t = true ↔
      ∃ pre mid post, t = pre ++ mid ++ post ∧ patternCompare q mid = true := by
  rw [patternCompare_any, anySuffix_iff]
  constructor
  · rintro ⟨pre, suf, h, hs⟩
    obtain ⟨mid, post, h2, hm⟩ := (patternCompare_append_any q suf).mp hs
    exact ⟨pre, mid, post, by rw [h, h2, List.append_assoc], hm⟩
  · rintro ⟨pre, mid, post, h, hm⟩
    exact ⟨pre, mid ++ post, by rw [h, List.append_assoc],
      (patternCompare_append_any q _).mpr ⟨mid, post, rfl, hm⟩⟩

/-- A pattern without `%` and `_` matches exactly the texts equal to it up to the case of
ASCII letters. -/
theorem patternCompare_plain (q mid : List Char) (h1 : '%' ∉ q) (h2 : '_' ∉ q) :
    patternCompare q mid = true ↔ mid.map Char.toLower = q.map Char.toLower := by
  induction q generalizing mid with
  | nil =>
    cases mid <;> simp [patternCompare]
  | cons p ps ih =>
    have hp : p ≠ '%' := fun h => h1 (by simp [h])
    have hu : p ≠ '_' := fun h => h2 (by simp [h])
    have ih1 := fun m => ih m (fun h => h1 (List.mem_cons_of_mem _ h))
      (fun h => h2 (List.mem_cons_of_mem _ h))
    cases mid with
    | nil => simp [patternCompare_cons_nil _ _ hp]
    | cons c cs =>
      rw [patternCompare_cons_cons _ _ _ _ hp]
      simp only [Bool.and_eq_true, ih1, List.map_cons,
        List.cons.injEq, Bool.or_eq_true, beq_iff_eq, hu, false_or]
      constructor
      · rintro ⟨a, b⟩
        exact ⟨a.symm, b⟩
      · rintro ⟨a, b⟩
        exact ⟨a.symm, b⟩

theorem wrapQuery_data (q : String) : ("%" ++ q ++ "%").data = '%' :: (q.data ++ ['%']) := by
  simp only [String.data_append]
  rfl

theorem infix_map_iff {α β : Type} (f : α → β) (l : List β) (t : List α) :
    l <:+: t.map f ↔ ∃ pre mid post, t = pre ++ mid ++ post ∧ mid.map f = l := by
  constructor
  · rintro ⟨a, b, h⟩
    obtain ⟨ab, post, h1, h2, h3⟩ := List.map_eq_append_iff.mp h.symm
    obtain ⟨pre, mid, h4, h5, h6⟩ := List.map_eq_append_iff.mp h2
    exact ⟨pre, mid, post, by rw [h1, h4], h6⟩
  · rintro ⟨pre, mid, post, h, hm⟩
    exact ⟨pre.map f, post.map f, by rw [h, ← hm]; simp⟩

theorem cstr_of_no_nul (l : List Char) (h : Char.ofNat 0 ∉ l) : cstr l = l := by
  unfold cstr
  rw [List.takeWhile_eq_self_iff]
  intro c hc
  have : c ≠ Char.ofNat 0 := fun e => h (e ▸ hc)
  simpa using this

theorem cstr_append_of_nul (l r : List Char) (h : Char.ofNat 0 ∈ l) :
    cstr (l ++ r) = cstr l := by
  induction l with
  | nil => simp at h
  | cons c cs ih =>
    by_cases hc : c = Char.ofNat 0
    · subst hc
      simp [cstr]
    · have hmem : Char.ofNat 0 ∈ cs := by
        rcases List.mem_cons.mp h with e | e
        · exact absurd e.symm hc
        · exact e
      have hp : (c != Char.ofNat 0) = true := by simpa using hc
      have ih1 := ih hmem
      unfold cstr at ih1 ⊢
      rw [List.cons_append, List.takeWhile_cons, List.takeWhile_cons]
      simp only [hp, if_true, ih1]

/-- The pattern of Search as the matcher reads it, for a query without NUL. -/
theorem cstr_wrap (q : String) (h : Char.ofNat 0 ∉ q.data) :
    cstr ("%" ++ q ++ "%").data = '%' :: (q.data ++ ['%']) := by
  rw [wrapQuery_data]
  apply cstr_of_no_nul
  intro hc
  rcases List.mem_cons.mp hc with e | e
  · exact absurd e (by decide)
  · rcases List.mem_append.mp e with e | e
    · exact h e
    · rw [List.mem_singleton] at e
      exact absurd e (by decide)

/-- The pattern of Search as the matcher reads it, for a query with a NUL: the query is cut
at the NUL and the closing `%` is lost. -/
theorem cstr_wrap_nul (q : String) (h : Char.ofNat 0 ∈ q.data) :
    cstr ("%" ++ q ++ "%").data = '%' :: cstr q.data := by
  rw [wrapQuery_data]
  have hp : ('%' != Char.ofNat 0) = true := by decide
  have := cstr_append_of_nul q.data ['%'] h
  unfold cstr at this ⊢
  rw [List.takeWhile_cons]
  simp only [hp, if_true, this]

/-- C8, a run: on the three-message store a body search for "hello" with limit 1 returns
one message and the count 2, and the count is 2 for another offset and limit as well. -/
theorem Search_count_total_witness :
    demoMail.Search demoEnv "body" "hello" 0 1
      = (some [⟨"a", "ann@x.org", "bob@y.org", "Hello World"⟩], 2, none) ∧
    (demoMail.Search demoEnv "body" "hello" 5 7).2.1 = 2 :=
  ⟨by decide,
    (Search_count_total demoEnv demoMail "body" "hello" 0 1
      (some [⟨"a", "ann@x.org", "bob@y.org", "Hello World"⟩]) 2 (by decide)).elim
      (fun _ h => h.elim (fun _ hh => hh.2.2.2.1 5 7))⟩

theorem searchPred_eq_true_iff {δ μ : Type} (env : Env δ μ) (field : List String)
    (pattern : String) (r : Row δ) (hlen : pattern.utf8ByteSize ≤ 50000) :
    searchPred env field pattern r = some true ↔
      sqlLike (env.extract r.message field) pattern = true := by
  have hl : ¬ (50000 < pattern.utf8ByteSize) := by omega
  unfold searchPred likePatternLimit
  cases hv : env.extract r.message field with
  | malformed => simp [sqlLike]
  | null => simp [hl]
  | text t => simp [hl]

theorem sqlLike_wrap_iff (value : Extracted) (q : String) (h0 : Char.ofNat 0 ∉ q.data) :
    sqlLike value ("%" ++ q ++ "%") = true ↔
      ∃ text, value = .text text ∧
        ∃ pre mid post, cstr text.data = pre ++ mid ++ post ∧
          patternCompare q.data mid = true := by
  cases value with
  | malformed => simp [sqlLike]
  | null => simp [sqlLike]
  | text text =>
    simp only [sqlLike, cstr_wrap q h0, patternCompare_wrap, Extracted.text.injEq]
    constructor
    · rintro ⟨pre, mid, post, h, hm⟩
      exact ⟨text, rfl, pre, mid, post, h, hm⟩
    · rintro ⟨text2, rfl, pre, mid, post, h, hm⟩
      exact ⟨pre, mid, post, h, hm⟩

theorem sqlLike_wrap_nul_iff (value : Extracted) (q : String) (h0 : Char.ofNat 0 ∈ q.data) :
    sqlLike value ("%" ++ q ++ "%") = true ↔
      ∃ text, value = .text text ∧
        ∃ pre suf, cstr text.data = pre ++ suf ∧
          patternCompare (cstr q.data) suf = true := by
  cases value with
  | malformed => simp [sqlLike]
  | null => simp [sqlLike]
  | text text =>
    simp only [sqlLike, cstr_wrap_nul q h0, patternCompare_any, anySuffix_iff,
      Extracted.text.injEq]
    constructor
    · rintro ⟨pre, suf, h, hm⟩
      exact ⟨text, rfl, pre, suf, h, hm⟩
    · rintro ⟨text2, rfl, pre, suf, h, hm⟩
      exact ⟨pre, suf, h, hm⟩

/-- C6, as the engine does it.  The predicate of Search on a row is LIKE with the pattern
`%q%`; the matcher reads the field and the pattern up to their first NUL, and the engine
accepts a pattern of at most 50000 bytes.  For a query without NUL and a pattern within the
limit, a row is selected exactly when the selected field is a text (not NULL, document
well-formed) and the query matches a contiguous part of that text as a LIKE pattern (`%`
in the query stands for any run of characters, `_` for any one character, a letter for
itself in either ASCII case); for a query without `%` and `_` this is containment of the
query up to the case of ASCII letters, so a field whose text before its first NUL contains
the query as written is selected.  A query with a NUL is cut there and has to match up to
the end of the text.  Every message of a page returned with a nil error is the decoding of
a selected row.  With a pattern beyond the limit the search returns an error on every
table that has a row. -/
theorem Search_like_selects {δ μ : Type} (env : Env δ μ) :
    (∀ (r : Row δ) (field : List String) (q : String), Char.ofNat 0 ∉ q.data →
      ("%" ++ q ++ "%").utf8ByteSize ≤ 50000 →
      (searchPred env field ("%" ++ q ++ "%") r = some true ↔
        ∃ text, env.extract r.message field = .text text ∧
          ∃ pre mid post, cstr text.data = pre ++ mid ++ post ∧
            patternCompare q.data mid = true)) ∧
    (∀ (r : Row δ) (field : List String) (q : String), Char.ofNat 0 ∉ q.data →
      ("%" ++ q ++ "%").utf8ByteSize ≤ 50000 → '%' ∉ q.data → '_' ∉ q.data →
      (searchPred env field ("%" ++ q ++ "%") r = some true ↔
        ∃ text, env.extract r.message field = .text text ∧
          q.data.map Char.toLower <:+: (cstr text.data).map Char.toLower)) ∧
    (∀ (r : Row δ) (field : List String) (text q : String), Char.ofNat 0 ∉ q.data →
      ("%" ++ q ++ "%").utf8ByteSize ≤ 50000 → '%' ∉ q.data → '_' ∉ q.data →
      env.extract r.message field = .text text → q.data <:+: cstr text.data →
      searchPred env field ("%" ++ q ++ "%") r = some true) ∧
    (∀ (r : Row δ) (field : List String) (q : String), Char.ofNat 0 ∈ q.data →
      ("%" ++ q ++ "%").utf8ByteSize ≤ 50000 →
      (searchPred env field ("%" ++ q ++ "%") r = some true ↔
        ∃ text, env.extract r.message field = .text text ∧
          ∃ pre suf, cstr text.data = pre ++ suf ∧
            patternCompare (cstr q.data) suf = true)) ∧
    (∀ (s : SqliteDB δ) (kind q : String) (start limit : Int) (page : List μ) (count : Int),
      s.Search env kind q start limit = (some page, count, none) →
      ∀ msg ∈ page, ∃ rows r, s.DB = some rows ∧ r ∈ rows ∧
        env.unmarshal r.message = some msg ∧
        searchPred env (searchField kind) ("%" ++ q ++ "%") r = some true) ∧
    (∀ (s : SqliteDB δ) (rows : List (Row δ)) (kind q : String) (start limit : Int),
      s.DB = some rows → rows ≠ [] → 50000 < ("%" ++ q ++ "%").utf8ByteSize →
      (s.Search env kind q start limit).2.2 ≠ none) := by
  have hB : ∀ (r : Row δ) (field : List String) (q : String), Char.ofNat 0 ∉ q.data →
      ("%" ++ q ++ "%").utf8ByteSize ≤ 50000 → '%' ∉ q.data → '_' ∉ q.data →
      (searchPred env field ("%" ++ q ++ "%") r = some true ↔
        ∃ text, env.extract r.message field = .text text ∧
          q.data.map Char.toLower <:+: (cstr text.data).map Char.toLower) := by
    intro r field q h0 hlen h1 h2
    rw [searchPred_eq_true_iff env field _ r hlen, sqlLike_wrap_iff _ q h0]
    constructor
    · rintro ⟨text, hv, pre, mid, post, h, hm⟩
      exact ⟨text, hv, (infix_map_iff _ _ _).mpr
        ⟨pre, mid, post, h, (patternCompare_plain _ _ h1 h2).mp hm⟩⟩
    · rintro ⟨text, hv, hin⟩
      obtain ⟨pre, mid, post, h, hm⟩ := (infix_map_iff _ _ _).mp hin
      exact ⟨text, hv, pre, mid, post, h, (patternCompare_plain _ _ h1 h2).mpr hm⟩
  refine ⟨?_, hB, ?_, ?_, ?_, ?_⟩
  · intro r field q h0 hlen
    rw [searchPred_eq_true_iff env field _ r hlen, sqlLike_wrap_iff _ q h0]
  · intro r field text q h0 hlen h1 h2 hv hin
    refine (hB r field q h0 hlen h1 h2).mpr ⟨text, hv, ?_⟩
    obtain ⟨a, b, h⟩ := hin
    exact ⟨a.map Char.toLower, b.map Char.toLower, by rw [← h]; simp⟩
  · intro r field q h0 hlen
    rw [searchPred_eq_true_iff env field _ r hlen, sqlLike_wrap_nul_iff _ q h0]
  · intro s kind q start limit page count h msg hmsg
    obtain ⟨rows, hdb, hok⟩ := (Search_ok_iff env s kind q start limit).mp (by rw [h])
    rw [Search_eq env s rows hdb kind q start limit hok] at h
    simp only [Prod.mk.injEq, and_true, Option.some.injEq] at h
    rw [← h.1] at hmsg
    obtain ⟨d, hd, hdm⟩ := List.mem_filterMap.mp hmsg
    obtain ⟨r, hr, rfl⟩ := List.mem_map.mp hd
    have hr2 := (limitOffset_sublist limit start _).subset hr
    have hr3 := (orderById_perm _).subset hr2
    rw [List.mem_filter] at hr3
    exact ⟨rows, r, hdb, hr3.1, hdm,
      (searchPred_eq_true_iff env _ _ r (hok r hr3.1).2).mpr hr3.2⟩
  · intro s rows kind q start limit hdb hne hlong hnil
    obtain ⟨rows2, hdb2, hok⟩ := (Search_ok_iff env s kind q start limit).mp hnil
    rw [hdb] at hdb2
    cases hdb2
    cases rows with
    | nil => exact hne rfl
    | cons r rs =>
      have := (hok r (List.mem_cons_self _ _)).2
      omega

/-- C6, a run: the row whose body is "Hello World" contains "hello" up to case and is
selected by the query "hello". -/
theorem Search_like_selects_witness :
    (Char.ofNat 0 ∉ "hello".data) ∧ (("%" ++ "hello" ++ "%").utf8ByteSize ≤ 50000) ∧
    ('%' ∉ "hello".data) ∧ ('_' ∉ "hello".data) ∧
    (searchPred demoEnv ["Raw", "Data"] ("%" ++ "hello" ++ "%")
        ⟨1, .json ⟨"a", "ann@x.org", "bob@y.org", "Hello World"⟩⟩ = some true ↔
      ∃ text, demoEnv.extract
          (⟨1, .json ⟨"a", "ann@x.org", "bob@y.org", "Hello World"⟩⟩ : Row DemoDoc).message
          ["Raw", "Data"] = .text text ∧
        "hello".data.map Char.toLower <:+: (cstr text.data).map Char.toLower) ∧
    searchPred demoEnv ["Raw", "Data"] ("%" ++ "hello" ++ "%")
        ⟨1, .json ⟨"a", "ann@x.org", "bob@y.org", "Hello World"⟩⟩ = some true :=
  ⟨by decide, by decide, by decide, by decide,
    (Search_like_selects demoEnv).2.1 ⟨1, .json ⟨"a", "ann@x.org", "bob@y.org", "Hello World"⟩⟩
      ["Raw", "Data"] "hello" (by decide) (by decide) (by decide) (by decide),
    by decide⟩

/-- C6 fails as stated: the body "Hello World" does not contain "hello", yet the search for
"hello" returns it; the body "bye" contains neither "b_e" nor "b%e", yet the searches for
"b_e" and for "b%e" return it; and a text that contains "hello" after a NUL is not selected
by the query "hello". -/
theorem Search_like_not_case_sensitive_substring :
    ¬ ("hello".data <:+: "Hello World".data) ∧
    demoMail.Search demoEnv "body" "hello" 0 10
      = (some [⟨"a", "ann@x.org", "bob@y.org", "Hello World"⟩,
               ⟨"b", "bob@y.org", "ann@x.org", "say hello"⟩], 2, none) ∧
    ¬ ("b_e".data <:+: "bye".data) ∧
    demoMail.Search demoEnv "body" "b_e" 0 10
      = (some [⟨"c", "cy@z.org", "ann@x.org", "bye"⟩], 1, none) ∧
    ¬ ("b%e".data <:+: "bye".data) ∧
    demoMail.Search demoEnv "body" "b%e" 0 10
      = (some [⟨"c", "cy@z.org", "ann@x.org", "bye"⟩], 1, none) ∧
    "hello".data <:+: ['a', Char.ofNat 0, 'h', 'e', 'l', 'l', 'o'] ∧
    sqlLike (.text ⟨['a', Char.ofNat 0, 'h', 'e', 'l', 'l', 'o']⟩) ("%" ++ "hello" ++ "%")
      = false := by
  decide

theorem filterMap_roundtrip {δ μ : Type} (env : Env δ μ) (ms : List μ)
    (h : ∀ m ∈ ms, ∃ d, env.marshal m = some d ∧ env.unmarshal d = some m) :
    (ms.filterMap env.marshal).filterMap env.unmarshal = ms := by
  induction ms with
  | nil => rfl
  | cons x xs ih =>
    obtain ⟨d, hd, hu⟩ := h x (List.mem_cons_self _ _)
    simp [List.filterMap_cons, hd, hu, ih (fun y hy => h y (List.mem_cons_of_mem _ hy))]

theorem length_filterMap_marshal {δ μ : Type} (env : Env δ μ) (ms : List μ)
    (h : ∀ m ∈ ms, ∃ d, env.marshal m = some d) :
    (ms.filterMap env.marshal).length = ms.length := by
  induction ms with
  | nil => rfl
  | cons x xs ih =>
    obtain ⟨d, hd⟩ := h x (List.mem_cons_self _ _)
    simp [List.filterMap_cons, hd, ih (fun y hy => h y (List.mem_cons_of_mem _ hy))]

/-- C9, as the engine does it: a List(offset, limit) on a store whose table exists returns a
nil error and this sequence: all rows in ascending rowid order (the order of the table when
its rows were appended under increasing rowids), without the first `offset` of them (none
dropped for a negative offset), cut to the first `limit` of the rest when `limit` is not
negative and not cut at all when it is negative, each document decoded and the ones that
fail to decode left out; so for `limit ≥ 0` the result has at most `limit` messages.
List(0, N) after N Store calls of decodable messages on a new store, all returning a nil
error, returns the N messages in the order stored. -/
theorem List_page {δ μ : Type} (env : Env δ μ) :
    (∀ (s : SqliteDB δ) (rows : List (Row δ)) (start limit : Int), s.DB = some rows →
      (orderById rows).Perm rows ∧ (orderById rows).Pairwise (fun a b => a.id ≤ b.id) ∧
      (rows.Pairwise (fun a b => a.id ≤ b.id) → orderById rows = rows) ∧
      s.List env start limit =
        (some ((limitOffset limit start (orderById rows)).filterMap
          (fun r => env.unmarshal r.message)), none) ∧
      (0 ≤ limit → limitOffset limit start (orderById rows)
          = ((orderById rows).drop start.toNat).take limit.toNat) ∧
      (limit < 0 → limitOffset limit start (orderById rows)
          = (orderById rows).drop start.toNat) ∧
      (0 ≤ limit → ∀ msgs, (s.List env start limit).1 = some msgs →
        (msgs.length : Int) ≤ limit)) ∧
    (∀ (table : String) (ms : List μ),
      (∀ m ∈ ms, ∃ d, env.marshal m = some d ∧ env.unmarshal d = some m) →
      (∀ res ∈ (storeAll env (CreateSqlite none table) ms).2, res.2 = none) →
      (storeAll env (CreateSqlite none table) ms).1.List env 0 ms.length = (some ms, none)) := by
  constructor
  · intro s rows start limit hdb
    have hl : s.List env start limit =
        (some ((limitOffset limit start (orderById rows)).filterMap
          (fun r => env.unmarshal r.message)), none) := by
      rw [List_eq env s rows hdb, List.filterMap_map]
      rfl
    refine ⟨orderById_perm rows, orderById_sorted rows, orderById_of_sorted rows, hl,
      ?_, ?_, ?_⟩
    · intro h0
      have : ¬ limit < 0 := by omega
      simp [limitOffset, this]
    · intro h0
      simp [limitOffset, h0]
    · intro h0 msgs hmsgs
      rw [hl] at hmsgs
      simp only [Option.some.injEq] at hmsgs
      rw [← hmsgs]
      have l1 := List.length_filterMap_le (fun r => env.unmarshal r.message)
        (limitOffset limit start (orderById rows))
      have l2 := limitOffset_length_le limit start (orderById rows) h0
      omega
  · intro table ms hrt hok
    obtain ⟨hm, heq⟩ := storeAll_fresh env table ms hok
    rw [heq]
    rw [List_eq env _ (numbered 1 (ms.filterMap env.marshal)) rfl]
    rw [orderById_of_sorted _ (numbered_sorted _ _)]
    have hlen : (numbered 1 (ms.filterMap env.marshal)).length = ms.length := by
      rw [← List.length_map (numbered 1 (ms.filterMap env.marshal)) Row.message,
        numbered_map_message, length_filterMap_marshal env ms hm]
    have hlo : limitOffset (ms.length : Int) 0 (numbered 1 (ms.filterMap env.marshal))
        = numbered 1 (ms.filterMap env.marshal) := by
      have hneg : ¬ ((ms.length : Int) < 0) := by omega
      simp only [limitOffset, hneg, if_false, Int.toNat_zero, List.drop_zero, Int.toNat_ofNat]
      exact List.take_of_length_le (le_of_eq hlen)
    rw [hlo, numbered_map_message, filterMap_roundtrip env ms hrt]

/-- C9, a run: the three messages stored in order on a new store come back from
List(0, 3) in that order. -/
theorem List_page_witness :
    (∀ m ∈ demoMsgs3, ∃ d, demoEnv.marshal m = some d ∧ demoEnv.unmarshal d = some m) ∧
    (∀ res ∈ (storeAll demoEnv (CreateSqlite none "messages") demoMsgs3).2, res.2 = none) ∧
    (storeAll demoEnv (CreateSqlite none "messages") demoMsgs3).1.List demoEnv 0 3
      = (some demoMsgs3, none) :=
  ⟨fun m _ => ⟨.json m, rfl, rfl⟩, by decide,
    (List_page demoEnv).2 "messages" demoMsgs3 (fun m _ => ⟨.json m, rfl, rfl⟩) (by decide)⟩

/-- C9 fails as stated: List(0, -1) on the three-message store returns all three messages,
which is more than `limit` = -1 messages. -/
theorem List_negative_limit_unbounded :
    demoMail.List demoEnv 0 (-1) = (some demoMsgs3, none) ∧
    ¬ ((demoMsgs3.length : Int) ≤ -1) := by
  decide

/-! ## Load -/

theorem firstWhere_insertRow_only {δ : Type} (p : Row δ → Option Bool) (r : Row δ)
    (rows : List (Row δ)) (hr : p r = some true) (hrows : ∀ a ∈ rows, p a = some false) :
    firstWhere p (insertRow r rows) = .ok (some r) := by
  induction rows with
  | nil => simp [insertRow, firstWhere, hr]
  | cons x xs ih =>
    have hx := hrows x (List.mem_cons_self _ _)
    have ih1 := ih (fun a ha => hrows a (List.mem_cons_of_mem _ ha))
    unfold insertRow
    split
    · simp [firstWhere, hr]
    · simp [firstWhere, hx, ih1]

/-- C10, as the code does it: when the engine can read the ID of every document of the store
and no row has the identity x, a message m whose document carries the identity x and
decodes back to m is returned by Load(x) right after a Store(m) that returned a nil
error. -/
theorem Load_after_Store {δ μ : Type} (env : Env δ μ) (s s1 : SqliteDB δ) (m : μ)
    (tok : String) (doc : δ) (x : String)
    (hst : s.Store env m = (s1, tok, none)) (hm : env.marshal m = some doc)
    (hdec : env.unmarshal doc = some m) (hid : env.extract doc ["ID"] = .text x)
    (hread : ∀ rows, s.DB = some rows →
      ∀ r ∈ rows, env.extract r.message ["ID"] ≠ .malformed)
    (hnew : ∀ rows, s.DB = some rows →
      ∀ r ∈ rows, env.extract r.message ["ID"] ≠ .text x) :
    s1.Load env x = (some m, none) := by
  obtain ⟨rows, doc1, id, h1, h2, -, h4, -⟩ := Store_ok env s s1 m tok hst
  rw [hm] at h2
  cases h2
  subst h4
  have hf : firstWhere (hasID env x) (insertRow ⟨id, doc⟩ rows) = .ok (some ⟨id, doc⟩) := by
    apply firstWhere_insertRow_only
    · simp [hasID, hid]
    · intro a ha
      have e1 := hread rows h1 a ha
      have e2 := hnew rows h1 a ha
      unfold hasID
      cases hv : env.extract a.message ["ID"] with
      | malformed => exact absurd hv e1
      | null => rfl
      | text t =>
        have : t ≠ x := fun e => e2 (by rw [hv, e])
        simp [this]
  simp [SqliteDB.Load, hf, hdec]

/-- C10, a run: on the three-message store, which has no row with the identity "d", a
message with the identity "d" is loaded back after it was stored. -/
theorem Load_after_Store_witness :
    (demoMail.Store demoEnv ⟨"d", "dan@w.org", "ann@x.org", "hi"⟩).2.2 = none ∧
    (demoMail.Store demoEnv ⟨"d", "dan@w.org", "ann@x.org", "hi"⟩).1.Load demoEnv "d"
      = (some ⟨"d", "dan@w.org", "ann@x.org", "hi"⟩, none) :=
  ⟨by decide, Load_after_Store demoEnv demoMail _ ⟨"d", "dan@w.org", "ann@x.org", "hi"⟩
    (demoMail.Store demoEnv ⟨"d", "dan@w.org", "ann@x.org", "hi"⟩).2.1
    (.json ⟨"d", "dan@w.org", "ann@x.org", "hi"⟩) "d" (by decide) rfl rfl rfl
    (by decide) (by decide)⟩

/-- C10 fails as stated.  First run: the store already holds a message with the identity
"a"; a second message with the identity "a" is stored with a nil error, and Load("a") right
after returns the first message, not the one just stored.  Second run: the store holds a
row whose document is not JSON; a message with the identity "a" is stored with a nil error,
and Load("a") right after returns an error. -/
theorem Load_returns_older_row :
    ((demoMail.Store demoEnv ⟨"a", "eve@v.org", "ann@x.org", "again"⟩).2.2 = none) ∧
    demoEnv.marshal ⟨"a", "eve@v.org", "ann@x.org", "again"⟩
      = some (.json ⟨"a", "eve@v.org", "ann@x.org", "again"⟩) ∧
    demoEnv.unmarshal (.json ⟨"a", "eve@v.org", "ann@x.org", "again"⟩)
      = some ⟨"a", "eve@v.org", "ann@x.org", "again"⟩ ∧
    (demoMail.Store demoEnv ⟨"a", "eve@v.org", "ann@x.org", "again"⟩).1.Load demoEnv "a"
      = (some ⟨"a", "ann@x.org", "bob@y.org", "Hello World"⟩, none) ∧
    (⟨"a", "ann@x.org", "bob@y.org", "Hello World"⟩ : DemoMessage)
      ≠ ⟨"a", "eve@v.org", "ann@x.org", "again"⟩ ∧
    ((demoJunk.Store demoEnv ⟨"a", "eve@v.org", "ann@x.org", "again"⟩).2.2 = none) ∧
    (demoJunk.Store demoEnv ⟨"a", "eve@v.org", "ann@x.org", "again"⟩).1.Load demoEnv "a"
      = (none, some .malformedJSON) := by
  decide

end Storage
